import Mathlib

/-!
Verification of compiler-rt's `atomic.c` (lock-striped fallback runtime for
atomic memory operations) and of `__isOSVersionAtLeast` from
`os_version_check.c`, against their natural-language specification.

The embedding is byte-level and sequential: memory is a total map from
addresses to bytes, the lock table is a total map from slot indices to a
held flag, and each entry point of `atomic.c` becomes a Lean function on
that state.  The clang (`__c11_*`) preprocessor branch of the source is the
one modelled, since `atomic.c` is compiled by clang (the
`#pragma redefine_extname` hack at the top of the file requires it).
Native lock-free instructions are modelled by their value-level semantics
over the same byte memory, using a little-endian byte/value codec.
A separate fine-grained interleaving model covers the concurrent
`fetch_add` claim.
-/

namespace AtomicRT

/-- Byte-addressed memory: a total map from addresses to byte values. -/
abbrev Mem := Nat → Nat

/-- Read `n` consecutive bytes starting at address `p` (the source of
`memcpy`-style operations). -/
def readBytes (m : Mem) (p : Nat) : Nat → List Nat
  | 0 => []
  | k + 1 => m p :: readBytes m (p + 1) k

/-- Write the byte list `bs` to consecutive addresses starting at `p`
(the destination side of `memcpy`). -/
def writeBytes (m : Mem) (p : Nat) : List Nat → Mem
  | [] => m
  | b :: bs => writeBytes (fun a => if a = p then b else m a) (p + 1) bs

/-- Little-endian decoding of a byte list into an unsigned integer. -/
def bytesToNat : List Nat → Nat
  | [] => 0
  | b :: bs => b + 256 * bytesToNat bs

/-- Little-endian encoding of an unsigned integer into `n` bytes, truncating
modulo `256 ^ n` exactly as storing into an `n`-byte unsigned C type does. -/
def natToBytes (v : Nat) : Nat → List Nat
  | 0 => []
  | k + 1 => v % 256 :: natToBytes (v / 256) k

/-- All entries of the list are genuine byte values. -/
def ValidBytes (bs : List Nat) : Prop := ∀ b ∈ bs, b < 256

/-- Every cell of the memory holds a genuine byte value. -/
def ValidMem (m : Mem) : Prop := ∀ a, m a < 256

/-- The byte ranges `[p, p + n)` and `[q, q + k)` do not overlap. -/
def Disj (p n q k : Nat) : Prop := p + n ≤ q ∨ q + k ≤ p

/-- Number of locks, `1 << 10` (`SPINLOCK_COUNT` in `atomic.c`). -/
def SPINLOCK_COUNT : Nat := 1 <<< 10

/-- Mask for lock indices (`SPINLOCK_COUNT - 1`). -/
def SPINLOCK_MASK : Nat := SPINLOCK_COUNT - 1

/-- The pointer-to-lock hash `lock_for_pointer` of `atomic.c`: discard the
low 4 alignment bits, take the low bits as the base index, XOR in a further
right-shifted higher bit range, and mask into the table.  Addresses are
modelled as natural numbers. -/
def lock_for_pointer (ptr : Nat) : Nat :=
  let hash := ptr >>> 4
  let low := hash &&& SPINLOCK_MASK
  let hash2 := (hash >>> 16) ^^^ low
  hash2 &&& SPINLOCK_MASK

/-- The hash as the spec's own words describe it: right-shift the address by
4 bits, take the low `log2 N` bits (reduction modulo `N`) as the primary
index, XOR in the range shifted right by a further 16 bits, and reduce
modulo `N` into `[0, N)`. -/
def lock_for_spec (ptr : Nat) : Nat :=
  (((ptr >>> 4) >>> 16) ^^^ ((ptr >>> 4) % SPINLOCK_COUNT)) % SPINLOCK_COUNT

/-- Global state of the runtime: the byte memory plus the lock table
(`true` = slot held). -/
structure AtomicState where
  mem : Mem
  locks : Nat → Bool

/-- Effect of `unlock` on the lock table: the slot is released. -/
def releaseLock (locks : Nat → Bool) (l : Nat) : Nat → Bool :=
  fun i => if i = l then false else locks i

/-- The `LOCK_FREE_CASES` dispatch of `atomic.c`: sizes 1, 2, 4, 8 consult
the platform capability `lf`; size 16 is pinned to `IS_LOCK_FREE_16 = 0`;
any other size falls through to the slow path. -/
def lockfreeFor (lf : Nat → Bool) (size : Nat) : Bool :=
  if size = 1 then lf 1
  else if size = 2 then lf 2
  else if size = 4 then lf 4
  else if size = 8 then lf 8
  else false

/-- Result of an operation returning nothing: final state plus whether the
lock-free fast path was taken. -/
structure OutSt where
  st : AtomicState
  fast : Bool

/-- Result of an operation returning an unsigned value. -/
structure OutVal where
  val : Nat
  st : AtomicState
  fast : Bool

/-- Result of a compare-exchange: success flag, final state, path taken. -/
structure OutCas where
  ok : Bool
  st : AtomicState
  fast : Bool

/-- Generic atomic load `__atomic_load_c(size, src, dest, model)`: on the
fast path the native load reads the `size`-byte value at `src` and the
typed assignment stores it at `dest`; on the slow path the bytes are
copied under the lock for `src`. -/
def __atomic_load_c (lf : Nat → Bool) (size src dest model : Nat)
    (s : AtomicState) : OutSt :=
  let _ := model
  if lockfreeFor lf size then
    ⟨⟨writeBytes s.mem dest (natToBytes (bytesToNat (readBytes s.mem src size)) size),
      s.locks⟩, true⟩
  else
    let l := lock_for_pointer src
    ⟨⟨writeBytes s.mem dest (readBytes s.mem src size),
      releaseLock s.locks l⟩, false⟩

/-- Generic atomic store `__atomic_store_c(size, dest, src, model)`: the
fast path stores the value read from the `src` buffer natively at `dest`;
the slow path copies the bytes under the lock for `dest`. -/
def __atomic_store_c (lf : Nat → Bool) (size dest src model : Nat)
    (s : AtomicState) : OutSt :=
  let _ := model
  if lockfreeFor lf size then
    ⟨⟨writeBytes s.mem dest (natToBytes (bytesToNat (readBytes s.mem src size)) size),
      s.locks⟩, true⟩
  else
    let l := lock_for_pointer dest
    ⟨⟨writeBytes s.mem dest (readBytes s.mem src size),
      releaseLock s.locks l⟩, false⟩

/-- Generic strong compare-exchange
`__atomic_compare_exchange_c(size, ptr, expected, desired, success, failure)`:
the fast path is the native strong value CAS, the slow path compares the
bytes with `memcmp` under the lock; on success `desired` is copied into
`ptr`, on failure the current bytes of `ptr` are copied into `expected`. -/
def __atomic_compare_exchange_c (lf : Nat → Bool)
    (size ptr expected desired success failure : Nat)
    (s : AtomicState) : OutCas :=
  let _ := (success, failure)
  if lockfreeFor lf size then
    let pv := bytesToNat (readBytes s.mem ptr size)
    let ev := bytesToNat (readBytes s.mem expected size)
    if pv = ev then
      ⟨true,
       ⟨writeBytes s.mem ptr (natToBytes (bytesToNat (readBytes s.mem desired size)) size),
        s.locks⟩, true⟩
    else
      ⟨false, ⟨writeBytes s.mem expected (natToBytes pv size), s.locks⟩, true⟩
  else
    let l := lock_for_pointer ptr
    if readBytes s.mem ptr size = readBytes s.mem expected size then
      ⟨true,
       ⟨writeBytes s.mem ptr (readBytes s.mem desired size),
        releaseLock s.locks l⟩, false⟩
    else
      ⟨false,
       ⟨writeBytes s.mem expected (readBytes s.mem ptr size),
        releaseLock s.locks l⟩, false⟩

/-- Generic atomic exchange `__atomic_exchange_c(size, ptr, val, old, model)`:
the fast path performs the native value exchange at `ptr` and then stores
the returned prior value into the `old` buffer; the slow path copies
`ptr` into `old` and then `val` into `ptr` under the lock. -/
def __atomic_exchange_c (lf : Nat → Bool) (size ptr val old model : Nat)
    (s : AtomicState) : OutSt :=
  let _ := model
  if lockfreeFor lf size then
    let prior := natToBytes (bytesToNat (readBytes s.mem ptr size)) size
    let vbytes := natToBytes (bytesToNat (readBytes s.mem val size)) size
    ⟨⟨writeBytes (writeBytes s.mem ptr vbytes) old prior, s.locks⟩, true⟩
  else
    let l := lock_for_pointer ptr
    let m1 := writeBytes s.mem old (readBytes s.mem ptr size)
    let m2 := writeBytes m1 ptr (readBytes m1 val size)
    ⟨⟨m2, releaseLock s.locks l⟩, false⟩

/-- Size-specialized load `__atomic_load_N` (the `OPTIMISED_CASE`
instantiations for `N` in 1, 2, 4, 8, 16): returns the `n`-byte value at
`src`; the slow path reads it under the lock. -/
def __atomic_load_sized (lf : Nat → Bool) (n src model : Nat)
    (s : AtomicState) : OutVal :=
  let _ := model
  if lockfreeFor lf n then
    ⟨bytesToNat (readBytes s.mem src n), s, true⟩
  else
    let l := lock_for_pointer src
    ⟨bytesToNat (readBytes s.mem src n), ⟨s.mem, releaseLock s.locks l⟩, false⟩

/-- Size-specialized store `__atomic_store_N`: stores the value `val` into
the `n` bytes at `dest`. -/
def __atomic_store_sized (lf : Nat → Bool) (n dest val model : Nat)
    (s : AtomicState) : OutSt :=
  let _ := model
  if lockfreeFor lf n then
    ⟨⟨writeBytes s.mem dest (natToBytes val n), s.locks⟩, true⟩
  else
    let l := lock_for_pointer dest
    ⟨⟨writeBytes s.mem dest (natToBytes val n), releaseLock s.locks l⟩, false⟩

/-- Size-specialized exchange `__atomic_exchange_N`: writes `val` into the
`n` bytes at `dest` and returns the prior value. -/
def __atomic_exchange_sized (lf : Nat → Bool) (n dest val model : Nat)
    (s : AtomicState) : OutVal :=
  let _ := model
  let tmp := bytesToNat (readBytes s.mem dest n)
  if lockfreeFor lf n then
    ⟨tmp, ⟨writeBytes s.mem dest (natToBytes val n), s.locks⟩, true⟩
  else
    let l := lock_for_pointer dest
    ⟨tmp, ⟨writeBytes s.mem dest (natToBytes val n), releaseLock s.locks l⟩, false⟩

/-- Size-specialized strong compare-exchange `__atomic_compare_exchange_N`:
`expected` is the address of an `n`-byte buffer, `desired` a value; on
success `desired` is stored at `ptr`, on failure the current value of `ptr`
is stored at `expected`. -/
def __atomic_compare_exchange_sized (lf : Nat → Bool)
    (n ptr expected desired success failure : Nat)
    (s : AtomicState) : OutCas :=
  let _ := (success, failure)
  let pv := bytesToNat (readBytes s.mem ptr n)
  let ev := bytesToNat (readBytes s.mem expected n)
  if lockfreeFor lf n then
    if pv = ev then
      ⟨true, ⟨writeBytes s.mem ptr (natToBytes desired n), s.locks⟩, true⟩
    else
      ⟨false, ⟨writeBytes s.mem expected (natToBytes pv n), s.locks⟩, true⟩
  else
    let l := lock_for_pointer ptr
    if pv = ev then
      ⟨true, ⟨writeBytes s.mem ptr (natToBytes desired n), releaseLock s.locks l⟩, false⟩
    else
      ⟨false, ⟨writeBytes s.mem expected (natToBytes pv n), releaseLock s.locks l⟩, false⟩

/-- The five read-modify-write operators of the `ATOMIC_RMW` family. -/
inductive RMWOp where
  | add
  | sub
  | land
  | lor
  | lxor
deriving DecidableEq

/-- Semantics of one RMW operator on `w`-modulus unsigned integers, exactly
as C unsigned arithmetic of that width computes `tmp op val`: addition and
subtraction wrap modulo `w`, the bitwise operators act on the binary
representation. -/
def applyRMW (op : RMWOp) (w a b : Nat) : Nat :=
  match op with
  | .add => (a + b) % w
  | .sub => (a + (w - b % w)) % w
  | .land => (a &&& b) % w
  | .lor => (a ||| b) % w
  | .lxor => (a ^^^ b) % w

/-- Size-specialized read-modify-write `__atomic_fetch_{op}_N` (the
`ATOMIC_RMW` macro): reads the prior `n`-byte value at `ptr`, stores
`prior op val`, and returns the prior value. -/
def __atomic_fetch_sized (op : RMWOp) (lf : Nat → Bool) (n ptr val model : Nat)
    (s : AtomicState) : OutVal :=
  let _ := model
  let w := 256 ^ n
  let tmp := bytesToNat (readBytes s.mem ptr n)
  if lockfreeFor lf n then
    ⟨tmp, ⟨writeBytes s.mem ptr (natToBytes (applyRMW op w tmp val) n), s.locks⟩, true⟩
  else
    let l := lock_for_pointer ptr
    ⟨tmp, ⟨writeBytes s.mem ptr (natToBytes (applyRMW op w tmp val) n),
           releaseLock s.locks l⟩, false⟩

/-- Modelled from the spec: `atomic.c` has no generic runtime-size
`fetch_op` entry point (only the size-specialized `ATOMIC_RMW` family
exists in the source), but section 6 of the spec lists
`fetch_add|sub|and|or|xor(size, ptr, operand, order) -> old_value` on the
public surface.  Following the spec's words: interpret the `size` bytes at
`ptr` as an unsigned integer of that width, compute `old op operand` with
unsigned wraparound matching the width, write the result, return the prior
value, dispatching between fast and slow path per section 4.2. -/
def fetch_op_c (op : RMWOp) (lf : Nat → Bool) (size ptr operand model : Nat)
    (s : AtomicState) : OutVal :=
  let _ := model
  let w := 256 ^ size
  let old := bytesToNat (readBytes s.mem ptr size)
  if lockfreeFor lf size then
    ⟨old, ⟨writeBytes s.mem ptr (natToBytes (applyRMW op w old operand) size), s.locks⟩, true⟩
  else
    let l := lock_for_pointer ptr
    ⟨old, ⟨writeBytes s.mem ptr (natToBytes (applyRMW op w old operand) size),
           releaseLock s.locks l⟩, false⟩

/-- The version comparison of `__isOSVersionAtLeast` from
`os_version_check.c`, after the cached host triple
`(GlobalMajor, GlobalMinor, GlobalSubminor)` has been populated: the exact
cascade of comparisons from the source, returning the C `int32_t` results
1 and 0. -/
def __isOSVersionAtLeast (gMajor gMinor gSubminor Major Minor Subminor : Int) : Int :=
  if Major < gMajor then 1
  else if Major > gMajor then 0
  else if Minor < gMinor then 1
  else if Minor > gMinor then 0
  else if Subminor ≤ gSubminor then 1 else 0

/-!
Fine-grained interleaving model for the concurrency claim: each thread runs
the slow path of `__atomic_fetch_add_N` with operand 1 (`lock(l);
tmp = *ptr; *ptr = tmp + 1; unlock(l);`) `M` times on one location whose
value wraps modulo `W`.  Each line of the critical section is a separate
step, and a schedule is an arbitrary list of thread indices; a scheduled
thread attempts its next instruction (a failing lock compare-and-swap is a
spin, leaving the state unchanged). -/

/-- Program position of one thread inside the `fetch_add` slow path. -/
inductive Phase where
  | ready
  | acquired
  | readTmp (tmp : Nat)
  | wrote
deriving DecidableEq

/-- One thread: number of completed `fetch_add` calls, and current phase. -/
structure TState where
  done : Nat
  phase : Phase
deriving DecidableEq

/-- Global state of the concurrent system: the striped lock guarding the
location, the location's value, and all thread states. -/
structure CounterState where
  lockHeld : Bool
  v : Nat
  threads : List TState
deriving DecidableEq

/-- Completed writes a thread accounts for, counting an executed but not yet
unlocked critical section. -/
def contrib (t : TState) : Nat := t.done + (if t.phase = Phase.wrote then 1 else 0)

/-- Total writes accounted for by all threads. -/
def writesCount (ts : List TState) : Nat := (ts.map contrib).sum

/-- One scheduled step of thread `i`: the thread attempts its next
instruction of the `fetch_add(ptr, 1)` slow path.  The acquire step is the
spinlock compare-and-swap, which succeeds only when the lock is free;
otherwise the thread spins (no state change).  A thread that has finished
its `M` calls takes no further steps. -/
def stepT (W M : Nat) (g : CounterState) (i : Nat) : CounterState :=
  match g.threads.get? i with
  | none => g
  | some t =>
    match t.phase with
    | .ready =>
      if t.done < M ∧ g.lockHeld = false then
        ⟨true, g.v, g.threads.set i ⟨t.done, .acquired⟩⟩
      else g
    | .acquired => ⟨g.lockHeld, g.v, g.threads.set i ⟨t.done, .readTmp g.v⟩⟩
    | .readTmp tmp => ⟨g.lockHeld, (tmp + 1) % W, g.threads.set i ⟨t.done, .wrote⟩⟩
    | .wrote => ⟨false, g.v, g.threads.set i ⟨t.done + 1, .ready⟩⟩

/-- Run a whole schedule (list of thread indices) from a state. -/
def execSched (W M : Nat) (sched : List Nat) (g : CounterState) : CounterState :=
  sched.foldl (stepT W M) g

/-- Initial state for `n` threads: location zeroed, lock free. -/
def initCounter (n : Nat) : CounterState :=
  ⟨false, 0, List.replicate n ⟨0, Phase.ready⟩⟩

/-- All threads have completed their `M` calls and are outside the critical
section. -/
def finishedAll (M : Nat) (g : CounterState) : Prop :=
  ∀ t ∈ g.threads, t.done = M ∧ t.phase = Phase.ready

instance finishedAllDecidable (M : Nat) (g : CounterState) : Decidable (finishedAll M g) := by
  unfold finishedAll
  exact inferInstance

instance validBytesDecidable (bs : List Nat) : Decidable (ValidBytes bs) := by
  unfold ValidBytes
  exact inferInstance

instance disjDecidable (p n q k : Nat) : Decidable (Disj p n q k) := by
  unfold Disj
  exact inferInstance

/-- Inductive invariant of the concurrent counter: the value equals the
accounted writes modulo `W`; when the lock is free every thread is outside
the critical section; at most one thread is inside it; and a thread that
has read `tmp` but not yet written holds `tmp` equal to the current
value. -/
def CounterInv (W : Nat) (g : CounterState) : Prop :=
  g.v = writesCount g.threads % W
  ∧ (g.lockHeld = false → ∀ i t, g.threads.get? i = some t → t.phase = Phase.ready)
  ∧ (∀ i t, g.threads.get? i = some t → t.phase ≠ Phase.ready →
      ∀ j u, g.threads.get? j = some u → j ≠ i → u.phase = Phase.ready)
  ∧ (∀ i t, g.threads.get? i = some t → ∀ tmp, t.phase = Phase.readTmp tmp → tmp = g.v)

/-- The all-zero memory, used for concrete instantiations. -/
def zeroMem : Mem := fun _ => 0

/-- The lock table with every slot free. -/
def noLocks : Nat → Bool := fun _ => false

/-- Concrete initial state: zeroed memory, all locks free. -/
def zeroState : AtomicState := ⟨zeroMem, noLocks⟩

/-- Capability map of a platform on which every checked size is lock-free. -/
def lfAll : Nat → Bool := fun _ => true

/-- Capability map of a platform with no lock-free sizes (slow path forced). -/
def lfNone : Nat → Bool := fun _ => false

/-! ### Lemmas about the byte memory model and the value codec -/

theorem readBytes_length (m : Mem) (p n : Nat) : (readBytes m p n).length = n := by
  induction n generalizing p with
  | zero => rfl
  | succ k ih => simp [readBytes, ih]

theorem readBytes_congr {m m' : Mem} (p n : Nat)
    (h : ∀ a, p ≤ a → a < p + n → m a = m' a) :
    readBytes m p n = readBytes m' p n := by
  induction n generalizing p with
  | zero => rfl
  | succ k ih =>
    simp only [readBytes]
    rw [h p (Nat.le_refl p) (by omega), ih (p + 1) (fun a ha hb => h a (by omega) (by omega))]

theorem writeBytes_apply (m : Mem) (p : Nat) (bs : List Nat) (a : Nat) :
    writeBytes m p bs a =
      if p ≤ a ∧ a < p + bs.length then bs.getD (a - p) 0 else m a := by
  induction bs generalizing m p with
  | nil =>
    simp only [writeBytes, List.length_nil, Nat.add_zero]
    rw [if_neg (by omega)]
  | cons b bs ih =>
    simp only [writeBytes, List.length_cons]
    rw [ih]
    by_cases h1 : p + 1 ≤ a ∧ a < p + 1 + bs.length
    · rw [if_pos h1, if_pos (by omega)]
      have hsub : a - p = (a - (p + 1)) + 1 := by omega
      rw [hsub, List.getD_cons_succ]
    · rw [if_neg h1]
      by_cases h2 : a = p
      · subst h2
        rw [if_pos rfl, if_pos ⟨Nat.le_refl a, by omega⟩]
        simp
      · rw [if_neg h2, if_neg (by omega)]

theorem writeBytes_outside (m : Mem) (p : Nat) (bs : List Nat) (a : Nat)
    (h : a < p ∨ p + bs.length ≤ a) : writeBytes m p bs a = m a := by
  rw [writeBytes_apply, if_neg (by omega)]

theorem readBytes_writeBytes (m : Mem) (p : Nat) (bs : List Nat) :
    readBytes (writeBytes m p bs) p bs.length = bs := by
  induction bs generalizing m p with
  | nil => rfl
  | cons b bs ih =>
    simp only [writeBytes, List.length_cons, readBytes]
    have h1 : writeBytes (fun a => if a = p then b else m a) (p + 1) bs p = b := by
      rw [writeBytes_outside _ _ _ _ (Or.inl (by omega))]
      simp
    rw [h1, ih]

theorem readBytes_writeBytes_of_length (m : Mem) (p n : Nat) (bs : List Nat)
    (h : bs.length = n) : readBytes (writeBytes m p bs) p n = bs := by
  subst h
  exact readBytes_writeBytes m p bs

theorem readBytes_writeBytes_disjoint (m : Mem) (p n q : Nat) (bs : List Nat)
    (h : Disj p n q bs.length) : readBytes (writeBytes m q bs) p n = readBytes m p n := by
  apply readBytes_congr
  intro a ha hb
  apply writeBytes_outside
  rcases h with h | h
  · exact Or.inl (by omega)
  · exact Or.inr (by omega)

theorem natToBytes_length (v n : Nat) : (natToBytes v n).length = n := by
  induction n generalizing v with
  | zero => rfl
  | succ k ih => simp [natToBytes, ih]

theorem validBytes_natToBytes (v n : Nat) : ValidBytes (natToBytes v n) := by
  induction n generalizing v with
  | zero => intro b hb; simp [natToBytes] at hb
  | succ k ih =>
    intro b hb
    simp only [natToBytes, List.mem_cons] at hb
    rcases hb with hb | hb
    · subst hb; exact Nat.mod_lt _ (by norm_num)
    · exact ih (v / 256) b hb

theorem bytesToNat_natToBytes (v n : Nat) : bytesToNat (natToBytes v n) = v % 256 ^ n := by
  induction n generalizing v with
  | zero => simp [natToBytes, bytesToNat, Nat.mod_one]
  | succ k ih =>
    simp only [natToBytes, bytesToNat, ih]
    rw [pow_succ', Nat.mod_mul]

theorem bytesToNat_lt (bs : List Nat) (h : ValidBytes bs) :
    bytesToNat bs < 256 ^ bs.length := by
  induction bs with
  | nil => simp [bytesToNat]
  | cons b bs ih =>
    simp only [bytesToNat, List.length_cons]
    have hb : b < 256 := h b (by simp)
    have ht : bytesToNat bs < 256 ^ bs.length := ih (fun x hx => h x (by simp [hx]))
    rw [pow_succ']
    omega

theorem natToBytes_bytesToNat (bs : List Nat) (h : ValidBytes bs) :
    natToBytes (bytesToNat bs) bs.length = bs := by
  induction bs with
  | nil => rfl
  | cons b bs ih =>
    simp only [bytesToNat, List.length_cons, natToBytes]
    have hb : b < 256 := h b (by simp)
    have hmod : (b + 256 * bytesToNat bs) % 256 = b := by
      rw [Nat.add_mul_mod_self_left, Nat.mod_eq_of_lt hb]
    have hdiv : (b + 256 * bytesToNat bs) / 256 = bytesToNat bs := by
      rw [Nat.add_mul_div_left _ _ (by norm_num : (0:Nat) < 256), Nat.div_eq_of_lt hb]
      omega
    rw [hmod, hdiv, ih (fun x hx => h x (by simp [hx]))]

theorem bytesToNat_inj (bs cs : List Nat) (hb : ValidBytes bs) (hc : ValidBytes cs)
    (hl : bs.length = cs.length) (h : bytesToNat bs = bytesToNat cs) : bs = cs := by
  rw [← natToBytes_bytesToNat bs hb, ← natToBytes_bytesToNat cs hc, h, hl]

theorem validBytes_readBytes (m : Mem) (hm : ValidMem m) (p n : Nat) :
    ValidBytes (readBytes m p n) := by
  induction n generalizing p with
  | zero => intro b hb; simp [readBytes] at hb
  | succ k ih =>
    intro b hb
    simp only [readBytes, List.mem_cons] at hb
    rcases hb with hb | hb
    · subst hb; exact hm p
    · exact ih (p + 1) b hb

theorem validBytes_getD (bs : List Nat) (h : ValidBytes bs) (i : Nat) :
    bs.getD i 0 < 256 := by
  induction bs generalizing i with
  | nil => simp [List.getD]
  | cons b bs ih =>
    cases i with
    | zero => simpa using h b (by simp)
    | succ j =>
      simp only [List.getD_cons_succ]
      exact ih (fun x hx => h x (by simp [hx])) j

theorem validMem_writeBytes (m : Mem) (p : Nat) (bs : List Nat)
    (hm : ValidMem m) (hb : ValidBytes bs) : ValidMem (writeBytes m p bs) := by
  intro a
  rw [writeBytes_apply]
  by_cases h : p ≤ a ∧ a < p + bs.length
  · rw [if_pos h]; exact validBytes_getD bs hb _
  · rw [if_neg h]; exact hm a

theorem natToBytes_readBytes (m : Mem) (hm : ValidMem m) (p n : Nat) :
    natToBytes (bytesToNat (readBytes m p n)) n = readBytes m p n := by
  have := natToBytes_bytesToNat (readBytes m p n) (validBytes_readBytes m hm p n)
  rwa [readBytes_length] at this

theorem validMem_zeroMem : ValidMem zeroMem := by
  intro a
  simp [zeroMem]

theorem releaseLock_other (locks : Nat → Bool) (l i : Nat) (h : i ≠ l) :
    releaseLock locks l i = locks i := by
  simp [releaseLock, h]

theorem writeBytes_comm (m : Mem) (p q : Nat) (bs cs : List Nat)
    (h : Disj p bs.length q cs.length) :
    writeBytes (writeBytes m p bs) q cs = writeBytes (writeBytes m q cs) p bs := by
  funext a
  rw [writeBytes_apply, writeBytes_apply, writeBytes_apply, writeBytes_apply]
  rcases h with h | h
  · by_cases h1 : q ≤ a ∧ a < q + cs.length
    · rw [if_pos h1, if_pos h1, if_neg (by omega)]
    · rw [if_neg h1, if_neg h1]
  · by_cases h1 : q ≤ a ∧ a < q + cs.length
    · rw [if_pos h1, if_pos h1, if_neg (by omega)]
    · rw [if_neg h1, if_neg h1]

/-! ### Canonical characterizations of the operations, covering both the
lock-free fast path and the lock-guarded slow path -/

theorem load_c_mem (lf : Nat → Bool) (size src dest model : Nat) (s : AtomicState)
    (hm : ValidMem s.mem) :
    (__atomic_load_c lf size src dest model s).st.mem =
      writeBytes s.mem dest (readBytes s.mem src size) := by
  unfold __atomic_load_c
  split
  · simp only [natToBytes_readBytes s.mem hm]
  · rfl

theorem load_c_fast (lf : Nat → Bool) (size src dest model : Nat) (s : AtomicState) :
    (__atomic_load_c lf size src dest model s).fast = lockfreeFor lf size := by
  unfold __atomic_load_c
  split <;> simp_all

theorem load_c_locks (lf : Nat → Bool) (size src dest model : Nat) (s : AtomicState) :
    (__atomic_load_c lf size src dest model s).st.locks =
      if lockfreeFor lf size then s.locks
      else releaseLock s.locks (lock_for_pointer src) := by
  unfold __atomic_load_c
  split <;> simp_all

theorem store_c_mem (lf : Nat → Bool) (size dest src model : Nat) (s : AtomicState)
    (hm : ValidMem s.mem) :
    (__atomic_store_c lf size dest src model s).st.mem =
      writeBytes s.mem dest (readBytes s.mem src size) := by
  unfold __atomic_store_c
  split
  · simp only [natToBytes_readBytes s.mem hm]
  · rfl

theorem store_c_fast (lf : Nat → Bool) (size dest src model : Nat) (s : AtomicState) :
    (__atomic_store_c lf size dest src model s).fast = lockfreeFor lf size := by
  unfold __atomic_store_c
  split <;> simp_all

theorem store_c_locks (lf : Nat → Bool) (size dest src model : Nat) (s : AtomicState) :
    (__atomic_store_c lf size dest src model s).st.locks =
      if lockfreeFor lf size then s.locks
      else releaseLock s.locks (lock_for_pointer dest) := by
  unfold __atomic_store_c
  split <;> simp_all

theorem cas_c_ok (lf : Nat → Bool) (size ptr expected desired su fa : Nat)
    (s : AtomicState) (hm : ValidMem s.mem) :
    (__atomic_compare_exchange_c lf size ptr expected desired su fa s).ok = true ↔
      readBytes s.mem ptr size = readBytes s.mem expected size := by
  simp only [__atomic_compare_exchange_c]
  by_cases hf : lockfreeFor lf size = true
  · rw [if_pos hf]
    by_cases hv : bytesToNat (readBytes s.mem ptr size) = bytesToNat (readBytes s.mem expected size)
    · rw [if_pos hv]
      simp only [true_iff]
      exact bytesToNat_inj _ _ (validBytes_readBytes s.mem hm ptr size)
        (validBytes_readBytes s.mem hm expected size)
        (by rw [readBytes_length, readBytes_length]) hv
    · rw [if_neg hv]
      simp only [Bool.false_eq_true, false_iff]
      intro hc
      exact hv (by rw [hc])
  · rw [if_neg hf]
    by_cases hb : readBytes s.mem ptr size = readBytes s.mem expected size
    · rw [if_pos hb]
      simp [hb]
    · rw [if_neg hb]
      simp [hb]

theorem cas_c_mem_success (lf : Nat → Bool) (size ptr expected desired su fa : Nat)
    (s : AtomicState) (hm : ValidMem s.mem)
    (h : readBytes s.mem ptr size = readBytes s.mem expected size) :
    (__atomic_compare_exchange_c lf size ptr expected desired su fa s).st.mem =
      writeBytes s.mem ptr (readBytes s.mem desired size) := by
  simp only [__atomic_compare_exchange_c]
  by_cases hf : lockfreeFor lf size = true
  · rw [if_pos hf, if_pos (by rw [h])]
    simp only [natToBytes_readBytes s.mem hm]
  · rw [if_neg hf, if_pos h]

theorem cas_c_mem_failure (lf : Nat → Bool) (size ptr expected desired su fa : Nat)
    (s : AtomicState) (hm : ValidMem s.mem)
    (h : ¬ readBytes s.mem ptr size = readBytes s.mem expected size) :
    (__atomic_compare_exchange_c lf size ptr expected desired su fa s).st.mem =
      writeBytes s.mem expected (readBytes s.mem ptr size) := by
  simp only [__atomic_compare_exchange_c]
  by_cases hf : lockfreeFor lf size = true
  · rw [if_pos hf, if_neg (fun hv => h (bytesToNat_inj _ _
      (validBytes_readBytes s.mem hm ptr size)
      (validBytes_readBytes s.mem hm expected size)
      (by rw [readBytes_length, readBytes_length]) hv))]
    simp only [natToBytes_readBytes s.mem hm]
  · rw [if_neg hf, if_neg h]

theorem cas_c_locks (lf : Nat → Bool) (size ptr expected desired su fa : Nat)
    (s : AtomicState) :
    (__atomic_compare_exchange_c lf size ptr expected desired su fa s).st.locks =
      if lockfreeFor lf size then s.locks
      else releaseLock s.locks (lock_for_pointer ptr) := by
  simp only [__atomic_compare_exchange_c]
  by_cases hf : lockfreeFor lf size = true
  · rw [if_pos hf]
    split <;> simp [hf]
  · rw [if_neg hf]
    split <;> simp [hf]

theorem cas_c_fast (lf : Nat → Bool) (size ptr expected desired su fa : Nat)
    (s : AtomicState) :
    (__atomic_compare_exchange_c lf size ptr expected desired su fa s).fast =
      lockfreeFor lf size := by
  simp only [__atomic_compare_exchange_c]
  by_cases hf : lockfreeFor lf size = true
  · rw [if_pos hf]
    split <;> simp [hf]
  · rw [if_neg hf]
    split <;> simp [hf]

theorem exchange_c_mem (lf : Nat → Bool) (size ptr val old model : Nat)
    (s : AtomicState) (hm : ValidMem s.mem)
    (hpo : Disj ptr size old size) (hvo : Disj val size old size) :
    (__atomic_exchange_c lf size ptr val old model s).st.mem =
      writeBytes (writeBytes s.mem old (readBytes s.mem ptr size)) ptr
        (readBytes s.mem val size) := by
  unfold __atomic_exchange_c
  split
  · simp only [natToBytes_readBytes s.mem hm]
    rw [writeBytes_comm]
    rw [readBytes_length, readBytes_length]
    rcases hpo with h | h
    · exact Or.inl h
    · exact Or.inr h
  · simp only
    rw [readBytes_writeBytes_disjoint s.mem val size old _
      (by rw [readBytes_length]; exact hvo)]

theorem exchange_c_locks (lf : Nat → Bool) (size ptr val old model : Nat)
    (s : AtomicState) :
    (__atomic_exchange_c lf size ptr val old model s).st.locks =
      if lockfreeFor lf size then s.locks
      else releaseLock s.locks (lock_for_pointer ptr) := by
  unfold __atomic_exchange_c
  split <;> simp_all

theorem exchange_c_fast (lf : Nat → Bool) (size ptr val old model : Nat)
    (s : AtomicState) :
    (__atomic_exchange_c lf size ptr val old model s).fast = lockfreeFor lf size := by
  unfold __atomic_exchange_c
  split <;> simp_all

theorem load_sized_val (lf : Nat → Bool) (n src model : Nat) (s : AtomicState) :
    (__atomic_load_sized lf n src model s).val = bytesToNat (readBytes s.mem src n) := by
  simp only [__atomic_load_sized]
  split <;> rfl

theorem load_sized_mem (lf : Nat → Bool) (n src model : Nat) (s : AtomicState) :
    (__atomic_load_sized lf n src model s).st.mem = s.mem := by
  simp only [__atomic_load_sized]
  split <;> rfl

theorem load_sized_locks (lf : Nat → Bool) (n src model : Nat) (s : AtomicState) :
    (__atomic_load_sized lf n src model s).st.locks =
      if lockfreeFor lf n then s.locks
      else releaseLock s.locks (lock_for_pointer src) := by
  simp only [__atomic_load_sized]
  split <;> simp_all

theorem load_sized_fast (lf : Nat → Bool) (n src model : Nat) (s : AtomicState) :
    (__atomic_load_sized lf n src model s).fast = lockfreeFor lf n := by
  simp only [__atomic_load_sized]
  split <;> simp_all

theorem store_sized_mem (lf : Nat → Bool) (n dest val model : Nat) (s : AtomicState) :
    (__atomic_store_sized lf n dest val model s).st.mem =
      writeBytes s.mem dest (natToBytes val n) := by
  simp only [__atomic_store_sized]
  split <;> rfl

theorem store_sized_locks (lf : Nat → Bool) (n dest val model : Nat) (s : AtomicState) :
    (__atomic_store_sized lf n dest val model s).st.locks =
      if lockfreeFor lf n then s.locks
      else releaseLock s.locks (lock_for_pointer dest) := by
  simp only [__atomic_store_sized]
  split <;> simp_all

theorem store_sized_fast (lf : Nat → Bool) (n dest val model : Nat) (s : AtomicState) :
    (__atomic_store_sized lf n dest val model s).fast = lockfreeFor lf n := by
  simp only [__atomic_store_sized]
  split <;> simp_all

theorem exchange_sized_val (lf : Nat → Bool) (n dest val model : Nat) (s : AtomicState) :
    (__atomic_exchange_sized lf n dest val model s).val =
      bytesToNat (readBytes s.mem dest n) := by
  simp only [__atomic_exchange_sized]
  split <;> rfl

theorem exchange_sized_mem (lf : Nat → Bool) (n dest val model : Nat) (s : AtomicState) :
    (__atomic_exchange_sized lf n dest val model s).st.mem =
      writeBytes s.mem dest (natToBytes val n) := by
  simp only [__atomic_exchange_sized]
  split <;> rfl

theorem exchange_sized_locks (lf : Nat → Bool) (n dest val model : Nat) (s : AtomicState) :
    (__atomic_exchange_sized lf n dest val model s).st.locks =
      if lockfreeFor lf n then s.locks
      else releaseLock s.locks (lock_for_pointer dest) := by
  simp only [__atomic_exchange_sized]
  split <;> simp_all

theorem exchange_sized_fast (lf : Nat → Bool) (n dest val model : Nat) (s : AtomicState) :
    (__atomic_exchange_sized lf n dest val model s).fast = lockfreeFor lf n := by
  simp only [__atomic_exchange_sized]
  split <;> simp_all

theorem cas_sized_ok (lf : Nat → Bool) (n ptr expected desired su fa : Nat)
    (s : AtomicState) :
    (__atomic_compare_exchange_sized lf n ptr expected desired su fa s).ok =
      (bytesToNat (readBytes s.mem ptr n) == bytesToNat (readBytes s.mem expected n)) := by
  simp only [__atomic_compare_exchange_sized]
  by_cases hv : bytesToNat (readBytes s.mem ptr n) = bytesToNat (readBytes s.mem expected n)
  · simp only [if_pos hv]
    split <;> simp [hv]
  · simp only [if_neg hv]
    split <;> simp [hv]

theorem cas_sized_mem_success (lf : Nat → Bool) (n ptr expected desired su fa : Nat)
    (s : AtomicState)
    (h : bytesToNat (readBytes s.mem ptr n) = bytesToNat (readBytes s.mem expected n)) :
    (__atomic_compare_exchange_sized lf n ptr expected desired su fa s).st.mem =
      writeBytes s.mem ptr (natToBytes desired n) := by
  simp only [__atomic_compare_exchange_sized, if_pos h]
  split <;> rfl

theorem cas_sized_mem_failure (lf : Nat → Bool) (n ptr expected desired su fa : Nat)
    (s : AtomicState)
    (h : ¬ bytesToNat (readBytes s.mem ptr n) = bytesToNat (readBytes s.mem expected n)) :
    (__atomic_compare_exchange_sized lf n ptr expected desired su fa s).st.mem =
      writeBytes s.mem expected (natToBytes (bytesToNat (readBytes s.mem ptr n)) n) := by
  simp only [__atomic_compare_exchange_sized, if_neg h]
  split <;> rfl

theorem cas_sized_locks (lf : Nat → Bool) (n ptr expected desired su fa : Nat)
    (s : AtomicState) :
    (__atomic_compare_exchange_sized lf n ptr expected desired su fa s).st.locks =
      if lockfreeFor lf n then s.locks
      else releaseLock s.locks (lock_for_pointer ptr) := by
  simp only [__atomic_compare_exchange_sized]
  by_cases hv : bytesToNat (readBytes s.mem ptr n) = bytesToNat (readBytes s.mem expected n)
  · simp only [if_pos hv]
    split <;> simp_all
  · simp only [if_neg hv]
    split <;> simp_all

theorem cas_sized_fast (lf : Nat → Bool) (n ptr expected desired su fa : Nat)
    (s : AtomicState) :
    (__atomic_compare_exchange_sized lf n ptr expected desired su fa s).fast =
      lockfreeFor lf n := by
  simp only [__atomic_compare_exchange_sized]
  by_cases hv : bytesToNat (readBytes s.mem ptr n) = bytesToNat (readBytes s.mem expected n)
  · simp only [if_pos hv]
    split <;> simp_all
  · simp only [if_neg hv]
    split <;> simp_all

theorem fetch_sized_val (op : RMWOp) (lf : Nat → Bool) (n ptr val model : Nat)
    (s : AtomicState) :
    (__atomic_fetch_sized op lf n ptr val model s).val =
      bytesToNat (readBytes s.mem ptr n) := by
  simp only [__atomic_fetch_sized]
  split <;> rfl

theorem fetch_sized_mem (op : RMWOp) (lf : Nat → Bool) (n ptr val model : Nat)
    (s : AtomicState) :
    (__atomic_fetch_sized op lf n ptr val model s).st.mem =
      writeBytes s.mem ptr
        (natToBytes (applyRMW op (256 ^ n) (bytesToNat (readBytes s.mem ptr n)) val) n) := by
  simp only [__atomic_fetch_sized]
  split <;> rfl

theorem fetch_sized_locks (op : RMWOp) (lf : Nat → Bool) (n ptr val model : Nat)
    (s : AtomicState) :
    (__atomic_fetch_sized op lf n ptr val model s).st.locks =
      if lockfreeFor lf n then s.locks
      else releaseLock s.locks (lock_for_pointer ptr) := by
  simp only [__atomic_fetch_sized]
  split <;> simp_all

theorem fetch_sized_fast (op : RMWOp) (lf : Nat → Bool) (n ptr val model : Nat)
    (s : AtomicState) :
    (__atomic_fetch_sized op lf n ptr val model s).fast = lockfreeFor lf n := by
  simp only [__atomic_fetch_sized]
  split <;> simp_all

theorem fetch_op_c_eq_sized (op : RMWOp) (lf : Nat → Bool) (size ptr operand model : Nat)
    (s : AtomicState) :
    fetch_op_c op lf size ptr operand model s =
      __atomic_fetch_sized op lf size ptr operand model s := by
  simp only [fetch_op_c, __atomic_fetch_sized]

theorem disj_symm {p n q k : Nat} (h : Disj p n q k) : Disj q k p n := by
  rcases h with h | h
  · exact Or.inr h
  · exact Or.inl h

theorem readBytes_zeroMem (p n : Nat) : readBytes zeroMem p n = List.replicate n 0 := by
  induction n generalizing p with
  | zero => rfl
  | succ k ih => simp [readBytes, zeroMem, ih, List.replicate_succ]

theorem bytesToNat_replicate_zero (n : Nat) : bytesToNat (List.replicate n 0) = 0 := by
  induction n with
  | zero => rfl
  | succ k ih => simp [List.replicate_succ, bytesToNat, ih]

/-! ### Claim theorems -/

/-- C5: `lock_for_pointer` is a pure total function on addresses computing
exactly what the spec describes — right-shift the address by 4 bits, take
the low `log2 N` bits as the primary index, XOR in a further right-shifted
higher bit range, and mask the result into `[0, N)` — and the returned slot
index always lies inside the fixed table of `SPINLOCK_COUNT` locks. -/
theorem c5_lock_for_pointer_hash (ptr : Nat) :
    lock_for_pointer ptr = lock_for_spec ptr ∧ lock_for_pointer ptr < SPINLOCK_COUNT := by
  have hc : SPINLOCK_COUNT = 2 ^ 10 := by decide
  have hm : SPINLOCK_MASK = 2 ^ 10 - 1 := by decide
  constructor
  · simp only [lock_for_pointer, lock_for_spec, hc, hm, Nat.and_pow_two_sub_one_eq_mod]
  · simp only [lock_for_pointer, hm, Nat.and_pow_two_sub_one_eq_mod, hc]
    exact Nat.mod_lt _ (by norm_num)

/-- C10: after the cached host version triple is populated,
`__isOSVersionAtLeast(Major, Minor, Subminor)` returns 1 exactly when the
queried triple is lexicographically at most the cached host triple, and 0
otherwise. -/
theorem c10_isOSVersionAtLeast_lex (gM gm gs qM qm qs : Int) :
    (__isOSVersionAtLeast gM gm gs qM qm qs = 1 ↔
      (qM < gM ∨ (qM = gM ∧ (qm < gm ∨ (qm = gm ∧ qs ≤ gs))))) ∧
    (__isOSVersionAtLeast gM gm gs qM qm qs = 0 ↔
      ¬ (qM < gM ∨ (qM = gM ∧ (qm < gm ∨ (qm = gm ∧ qs ≤ gs))))) := by
  unfold __isOSVersionAtLeast
  constructor <;> split_ifs <;> simp <;> omega

/-- C2: for every width in the supported set and every value of that width,
a store followed by a load returns exactly the stored value, on either the
fast or the slow path (the capability map `lf` is arbitrary, so both
routes are covered); the same round trip holds for the generic byte-buffer
entry points. -/
theorem c2_store_load_roundtrip (lf : Nat → Bool) (n p x m1 m2 src dest : Nat)
    (s : AtomicState)
    (hn : n = 1 ∨ n = 2 ∨ n = 4 ∨ n = 8 ∨ n = 16)
    (hx : x < 2 ^ (8 * n)) (hm : ValidMem s.mem) :
    (__atomic_load_sized lf n p m2 (__atomic_store_sized lf n p x m1 s).st).val = x ∧
    readBytes (__atomic_load_c lf n p dest m2
        (__atomic_store_c lf n p src m1 s).st).st.mem dest n
      = readBytes s.mem src n := by
  have hpow : (256 : Nat) ^ n = 2 ^ (8 * n) := by
    rw [Nat.pow_mul]
  constructor
  · rw [load_sized_val, store_sized_mem,
      readBytes_writeBytes_of_length _ _ _ _ (natToBytes_length x n),
      bytesToNat_natToBytes, hpow]
    exact Nat.mod_eq_of_lt hx
  · have hm1 : ValidMem (__atomic_store_c lf n p src m1 s).st.mem := by
      rw [store_c_mem _ _ _ _ _ _ hm]
      exact validMem_writeBytes _ _ _ hm (validBytes_readBytes _ hm _ _)
    rw [load_c_mem _ _ _ _ _ _ hm1,
      readBytes_writeBytes_of_length _ _ _ _ (readBytes_length _ _ _),
      store_c_mem _ _ _ _ _ _ hm,
      readBytes_writeBytes_of_length _ _ _ _ (readBytes_length _ _ _)]

theorem writeBytes_outside2 (m : Mem) (p1 : Nat) (bs1 : List Nat) (p2 : Nat)
    (bs2 : List Nat) (a : Nat) (h1 : a < p1 ∨ p1 + bs1.length ≤ a)
    (h2 : a < p2 ∨ p2 + bs2.length ≤ a) :
    writeBytes (writeBytes m p1 bs1) p2 bs2 a = m a := by
  rw [writeBytes_outside _ _ _ _ h2, writeBytes_outside _ _ _ _ h1]

theorem applyRMW_lt (op : RMWOp) (w a b : Nat) (hw : 0 < w) : applyRMW op w a b < w := by
  cases op <;> exact Nat.mod_lt _ hw

theorem fetch_sized_stored (op : RMWOp) (lf : Nat → Bool) (n ptr v model : Nat)
    (s : AtomicState) :
    bytesToNat (readBytes (__atomic_fetch_sized op lf n ptr v model s).st.mem ptr n) =
      applyRMW op (256 ^ n) (bytesToNat (readBytes s.mem ptr n)) v := by
  rw [fetch_sized_mem,
    readBytes_writeBytes_of_length _ _ _ _ (natToBytes_length _ _),
    bytesToNat_natToBytes]
  exact Nat.mod_eq_of_lt (applyRMW_lt _ _ _ _ (by positivity))

/-- C3: each size-specialized RMW entry point interprets the `size` bytes at
`ptr` as an unsigned integer of that width, returns the prior value, and
writes back the result of the operation computed with unsigned wraparound
modulo `2 ^ (8 * size)`; in particular `fetch_add 5` on an 8-byte
zero-initialized location returns 0 and leaves 5, and `fetch_add 1` at the
maximum representable value wraps the stored value to 0. -/
theorem c3_fetch_op (op : RMWOp) (lf : Nat → Bool) (n ptr v model : Nat) (s : AtomicState)
    (hn : n = 1 ∨ n = 2 ∨ n = 4 ∨ n = 8 ∨ n = 16) (hm : ValidMem s.mem) :
    (__atomic_fetch_sized op lf n ptr v model s).val =
        bytesToNat (readBytes s.mem ptr n) ∧
    (__atomic_fetch_sized op lf n ptr v model s).val < 2 ^ (8 * n) ∧
    (op = RMWOp.add →
      bytesToNat (readBytes (__atomic_fetch_sized op lf n ptr v model s).st.mem ptr n) =
        ((__atomic_fetch_sized op lf n ptr v model s).val + v) % 2 ^ (8 * n)) ∧
    (op = RMWOp.sub →
      bytesToNat (readBytes (__atomic_fetch_sized op lf n ptr v model s).st.mem ptr n) =
        ((__atomic_fetch_sized op lf n ptr v model s).val +
          (2 ^ (8 * n) - v % 2 ^ (8 * n))) % 2 ^ (8 * n)) ∧
    (op = RMWOp.land →
      bytesToNat (readBytes (__atomic_fetch_sized op lf n ptr v model s).st.mem ptr n) =
        ((__atomic_fetch_sized op lf n ptr v model s).val &&& v) % 2 ^ (8 * n)) ∧
    (op = RMWOp.lor →
      bytesToNat (readBytes (__atomic_fetch_sized op lf n ptr v model s).st.mem ptr n) =
        ((__atomic_fetch_sized op lf n ptr v model s).val ||| v) % 2 ^ (8 * n)) ∧
    (op = RMWOp.lxor →
      bytesToNat (readBytes (__atomic_fetch_sized op lf n ptr v model s).st.mem ptr n) =
        ((__atomic_fetch_sized op lf n ptr v model s).val ^^^ v) % 2 ^ (8 * n)) ∧
    (∀ (lf2 : Nat → Bool) (p mo : Nat),
      (__atomic_fetch_sized RMWOp.add lf2 8 p 5 mo zeroState).val = 0 ∧
      bytesToNat (readBytes
        (__atomic_fetch_sized RMWOp.add lf2 8 p 5 mo zeroState).st.mem p 8) = 5) ∧
    (∀ (lf2 : Nat → Bool) (p mo : Nat),
      (__atomic_fetch_sized RMWOp.add lf2 8 p 1 mo
        ⟨writeBytes zeroMem p (natToBytes (2 ^ 64 - 1) 8), noLocks⟩).val = 2 ^ 64 - 1 ∧
      bytesToNat (readBytes (__atomic_fetch_sized RMWOp.add lf2 8 p 1 mo
        ⟨writeBytes zeroMem p (natToBytes (2 ^ 64 - 1) 8), noLocks⟩).st.mem p 8) = 0) := by
  have hpow : (256 : Nat) ^ n = 2 ^ (8 * n) := by
    rw [Nat.pow_mul]
  refine ⟨fetch_sized_val op lf n ptr v model s, ?_, ?_, ?_, ?_, ?_, ?_, ?_, ?_⟩
  · rw [fetch_sized_val, ← hpow]
    have := bytesToNat_lt (readBytes s.mem ptr n) (validBytes_readBytes s.mem hm ptr n)
    rwa [readBytes_length] at this
  · intro hop
    subst hop
    rw [fetch_sized_stored, fetch_sized_val, hpow]
    rfl
  · intro hop
    subst hop
    rw [fetch_sized_stored, fetch_sized_val, hpow]
    rfl
  · intro hop
    subst hop
    rw [fetch_sized_stored, fetch_sized_val, hpow]
    rfl
  · intro hop
    subst hop
    rw [fetch_sized_stored, fetch_sized_val, hpow]
    rfl
  · intro hop
    subst hop
    rw [fetch_sized_stored, fetch_sized_val, hpow]
    rfl
  · intro lf2 p mo
    constructor
    · rw [fetch_sized_val]
      simp only [zeroState]
      rw [readBytes_zeroMem, bytesToNat_replicate_zero]
    · rw [fetch_sized_stored]
      simp only [zeroState]
      rw [readBytes_zeroMem, bytesToNat_replicate_zero]
      norm_num [applyRMW]
  · intro lf2 p mo
    have hread : readBytes (writeBytes zeroMem p (natToBytes (2 ^ 64 - 1) 8)) p 8 =
        natToBytes (2 ^ 64 - 1) 8 :=
      readBytes_writeBytes_of_length _ _ _ _ (natToBytes_length _ _)
    constructor
    · rw [fetch_sized_val]
      simp only [hread, bytesToNat_natToBytes]
      norm_num
    · rw [fetch_sized_stored]
      simp only [hread, bytesToNat_natToBytes]
      norm_num [applyRMW]

/-- C7: the generic exchange copies the prior contents of `ptr` into the
`old` buffer and writes the `val` buffer's contents into `ptr`, returning
the prior contents through `old`; in particular an 8-byte exchange of
`0x1122334455667788` against a zeroed location returns prior value 0 and
leaves the location holding `0x1122334455667788`. -/
theorem c7_exchange_semantics (lf : Nat → Bool) (size ptr val old model : Nat)
    (s : AtomicState) (hm : ValidMem s.mem)
    (hpo : Disj ptr size old size) (hvo : Disj val size old size) :
    readBytes (__atomic_exchange_c lf size ptr val old model s).st.mem old size =
        readBytes s.mem ptr size ∧
    readBytes (__atomic_exchange_c lf size ptr val old model s).st.mem ptr size =
        readBytes s.mem val size ∧
    (∀ (lf2 : Nat → Bool) (p mo : Nat),
      (__atomic_exchange_sized lf2 8 p 0x1122334455667788 mo zeroState).val = 0 ∧
      bytesToNat (readBytes (__atomic_exchange_sized lf2 8 p 0x1122334455667788 mo
          zeroState).st.mem p 8) = 0x1122334455667788) := by
  refine ⟨?_, ?_, ?_⟩
  · rw [exchange_c_mem _ _ _ _ _ _ _ hm hpo hvo]
    rw [readBytes_writeBytes_disjoint _ _ _ _ _
      (by rw [readBytes_length]; exact disj_symm hpo)]
    exact readBytes_writeBytes_of_length _ _ _ _ (readBytes_length _ _ _)
  · rw [exchange_c_mem _ _ _ _ _ _ _ hm hpo hvo]
    exact readBytes_writeBytes_of_length _ _ _ _ (readBytes_length _ _ _)
  · intro lf2 p mo
    constructor
    · rw [exchange_sized_val]
      simp only [zeroState]
      rw [readBytes_zeroMem, bytesToNat_replicate_zero]
    · rw [exchange_sized_mem,
        readBytes_writeBytes_of_length _ _ _ _ (natToBytes_length _ _),
        bytesToNat_natToBytes]
      norm_num

/-- C1: the generic compare-exchange succeeds exactly when the `size` bytes
at `ptr` equal the bytes at `expected` (it never spuriously fails); on
success it writes `desired` into `ptr` and leaves `expected` (and
everything outside the `ptr` region) unchanged; on failure it returns
false, leaves the bytes at `ptr` (and everything outside the `expected`
region) unchanged, and overwrites `expected` with the true current bytes
of `ptr`. -/
theorem c1_compare_exchange (lf : Nat → Bool) (size ptr expected desired su fa : Nat)
    (s : AtomicState) (hm : ValidMem s.mem) (hpe : Disj ptr size expected size) :
    ((__atomic_compare_exchange_c lf size ptr expected desired su fa s).ok = true ↔
      readBytes s.mem ptr size = readBytes s.mem expected size) ∧
    ((__atomic_compare_exchange_c lf size ptr expected desired su fa s).ok = true →
      readBytes (__atomic_compare_exchange_c lf size ptr expected desired su fa s).st.mem
        ptr size = readBytes s.mem desired size) ∧
    ((__atomic_compare_exchange_c lf size ptr expected desired su fa s).ok = true →
      ∀ a, (a < ptr ∨ ptr + size ≤ a) →
        (__atomic_compare_exchange_c lf size ptr expected desired su fa s).st.mem a =
          s.mem a) ∧
    ((__atomic_compare_exchange_c lf size ptr expected desired su fa s).ok = true →
      readBytes (__atomic_compare_exchange_c lf size ptr expected desired su fa s).st.mem
        expected size = readBytes s.mem expected size) ∧
    ((__atomic_compare_exchange_c lf size ptr expected desired su fa s).ok = false →
      readBytes (__atomic_compare_exchange_c lf size ptr expected desired su fa s).st.mem
        expected size = readBytes s.mem ptr size) ∧
    ((__atomic_compare_exchange_c lf size ptr expected desired su fa s).ok = false →
      ∀ a, (a < expected ∨ expected + size ≤ a) →
        (__atomic_compare_exchange_c lf size ptr expected desired su fa s).st.mem a =
          s.mem a) ∧
    ((__atomic_compare_exchange_c lf size ptr expected desired su fa s).ok = false →
      readBytes (__atomic_compare_exchange_c lf size ptr expected desired su fa s).st.mem
        ptr size = readBytes s.mem ptr size) := by
  have hok := cas_c_ok lf size ptr expected desired su fa s hm
  refine ⟨hok, ?_, ?_, ?_, ?_, ?_, ?_⟩
  · intro h
    rw [cas_c_mem_success _ _ _ _ _ _ _ _ hm (hok.mp h)]
    exact readBytes_writeBytes_of_length _ _ _ _ (readBytes_length _ _ _)
  · intro h a ha
    rw [cas_c_mem_success _ _ _ _ _ _ _ _ hm (hok.mp h)]
    exact writeBytes_outside _ _ _ _ (by rw [readBytes_length]; omega)
  · intro h
    rw [cas_c_mem_success _ _ _ _ _ _ _ _ hm (hok.mp h)]
    exact readBytes_writeBytes_disjoint _ _ _ _ _
      (by rw [readBytes_length]; exact disj_symm hpe)
  · intro h
    have hne : ¬ readBytes s.mem ptr size = readBytes s.mem expected size := by
      intro hc
      rw [hok.mpr hc] at h
      cases h
    rw [cas_c_mem_failure _ _ _ _ _ _ _ _ hm hne]
    exact readBytes_writeBytes_of_length _ _ _ _ (readBytes_length _ _ _)
  · intro h a ha
    have hne : ¬ readBytes s.mem ptr size = readBytes s.mem expected size := by
      intro hc
      rw [hok.mpr hc] at h
      cases h
    rw [cas_c_mem_failure _ _ _ _ _ _ _ _ hm hne]
    exact writeBytes_outside _ _ _ _ (by rw [readBytes_length]; omega)
  · intro h
    have hne : ¬ readBytes s.mem ptr size = readBytes s.mem expected size := by
      intro hc
      rw [hok.mpr hc] at h
      cases h
    rw [cas_c_mem_failure _ _ _ _ _ _ _ _ hm hne]
    exact readBytes_writeBytes_disjoint _ _ _ _ _
      (by rw [readBytes_length]; exact hpe)

theorem lockfreeFor_iff (lf : Nat → Bool) (size : Nat) :
    lockfreeFor lf size = true ↔
      ((size = 1 ∨ size = 2 ∨ size = 4 ∨ size = 8) ∧ lf size = true) := by
  constructor
  · intro h
    unfold lockfreeFor at h
    split_ifs at h with h1 h2 h3 h4
    · exact ⟨Or.inl h1, by rw [h1]; exact h⟩
    · exact ⟨Or.inr (Or.inl h2), by rw [h2]; exact h⟩
    · exact ⟨Or.inr (Or.inr (Or.inl h3)), by rw [h3]; exact h⟩
    · exact ⟨Or.inr (Or.inr (Or.inr h4)), by rw [h4]; exact h⟩
  · rintro ⟨hs, hl⟩
    unfold lockfreeFor
    rcases hs with h | h | h | h <;> subst h <;> simp [hl]

/-- C4: operations on sizes 1, 2, 4, 8 take the lock-free fast path exactly
when the platform capability `is_lock_free(size)` holds (and then the lock
table is left untouched); when the capability is absent, or the size is
outside that set, the lock-guarded slow path runs and releases the hashed
lock slot; and 16-byte operations always take the slow path regardless of
the capability map.  This is stated for every generic and size-specialized
entry point of the file. -/
theorem c4_lockfree_dispatch (lf : Nat → Bool)
    (size src dest ptr expected desired val old model su fa : Nat) (s : AtomicState) :
    (lockfreeFor lf size = true ↔
      ((size = 1 ∨ size = 2 ∨ size = 4 ∨ size = 8) ∧ lf size = true)) ∧
    lockfreeFor lf 16 = false ∧
    ((__atomic_load_c lf size src dest model s).fast = lockfreeFor lf size) ∧
    (lockfreeFor lf size = true →
      (__atomic_load_c lf size src dest model s).st.locks = s.locks) ∧
    (lockfreeFor lf size = false →
      (__atomic_load_c lf size src dest model s).st.locks =
        releaseLock s.locks (lock_for_pointer src)) ∧
    ((__atomic_store_c lf size dest src model s).fast = lockfreeFor lf size) ∧
    (lockfreeFor lf size = true →
      (__atomic_store_c lf size dest src model s).st.locks = s.locks) ∧
    (lockfreeFor lf size = false →
      (__atomic_store_c lf size dest src model s).st.locks =
        releaseLock s.locks (lock_for_pointer dest)) ∧
    ((__atomic_compare_exchange_c lf size ptr expected desired su fa s).fast =
      lockfreeFor lf size) ∧
    (lockfreeFor lf size = true →
      (__atomic_compare_exchange_c lf size ptr expected desired su fa s).st.locks =
        s.locks) ∧
    (lockfreeFor lf size = false →
      (__atomic_compare_exchange_c lf size ptr expected desired su fa s).st.locks =
        releaseLock s.locks (lock_for_pointer ptr)) ∧
    ((__atomic_exchange_c lf size ptr val old model s).fast = lockfreeFor lf size) ∧
    (lockfreeFor lf size = true →
      (__atomic_exchange_c lf size ptr val old model s).st.locks = s.locks) ∧
    (lockfreeFor lf size = false →
      (__atomic_exchange_c lf size ptr val old model s).st.locks =
        releaseLock s.locks (lock_for_pointer ptr)) ∧
    ((__atomic_load_sized lf size src model s).fast = lockfreeFor lf size) ∧
    (lockfreeFor lf size = true →
      (__atomic_load_sized lf size src model s).st.locks = s.locks) ∧
    (lockfreeFor lf size = false →
      (__atomic_load_sized lf size src model s).st.locks =
        releaseLock s.locks (lock_for_pointer src)) ∧
    ((__atomic_store_sized lf size dest val model s).fast = lockfreeFor lf size) ∧
    (lockfreeFor lf size = true →
      (__atomic_store_sized lf size dest val model s).st.locks = s.locks) ∧
    (lockfreeFor lf size = false →
      (__atomic_store_sized lf size dest val model s).st.locks =
        releaseLock s.locks (lock_for_pointer dest)) ∧
    ((__atomic_exchange_sized lf size dest val model s).fast = lockfreeFor lf size) ∧
    (lockfreeFor lf size = true →
      (__atomic_exchange_sized lf size dest val model s).st.locks = s.locks) ∧
    (lockfreeFor lf size = false →
      (__atomic_exchange_sized lf size dest val model s).st.locks =
        releaseLock s.locks (lock_for_pointer dest)) ∧
    ((__atomic_compare_exchange_sized lf size ptr expected desired su fa s).fast =
      lockfreeFor lf size) ∧
    (lockfreeFor lf size = true →
      (__atomic_compare_exchange_sized lf size ptr expected desired su fa s).st.locks =
        s.locks) ∧
    (lockfreeFor lf size = false →
      (__atomic_compare_exchange_sized lf size ptr expected desired su fa s).st.locks =
        releaseLock s.locks (lock_for_pointer ptr)) ∧
    (∀ op : RMWOp, (__atomic_fetch_sized op lf size ptr val model s).fast =
      lockfreeFor lf size) ∧
    (∀ op : RMWOp, lockfreeFor lf size = true →
      (__atomic_fetch_sized op lf size ptr val model s).st.locks = s.locks) ∧
    (∀ op : RMWOp, lockfreeFor lf size = false →
      (__atomic_fetch_sized op lf size ptr val model s).st.locks =
        releaseLock s.locks (lock_for_pointer ptr)) ∧
    (∀ op : RMWOp, (fetch_op_c op lf size ptr val model s).fast =
      lockfreeFor lf size) ∧
    (∀ op : RMWOp, lockfreeFor lf size = true →
      (fetch_op_c op lf size ptr val model s).st.locks = s.locks) ∧
    (∀ op : RMWOp, lockfreeFor lf size = false →
      (fetch_op_c op lf size ptr val model s).st.locks =
        releaseLock s.locks (lock_for_pointer ptr)) := by
  refine ⟨lockfreeFor_iff lf size, rfl,
    load_c_fast lf size src dest model s, ?_, ?_,
    store_c_fast lf size dest src model s, ?_, ?_,
    cas_c_fast lf size ptr expected desired su fa s, ?_, ?_,
    exchange_c_fast lf size ptr val old model s, ?_, ?_,
    load_sized_fast lf size src model s, ?_, ?_,
    store_sized_fast lf size dest val model s, ?_, ?_,
    exchange_sized_fast lf size dest val model s, ?_, ?_,
    cas_sized_fast lf size ptr expected desired su fa s, ?_, ?_,
    fun op => fetch_sized_fast op lf size ptr val model s, ?_, ?_,
    fun op => by rw [fetch_op_c_eq_sized]; exact fetch_sized_fast op lf size ptr val model s,
    ?_, ?_⟩
  · intro h
    rw [load_c_locks, if_pos h]
  · intro h
    rw [load_c_locks, if_neg (by simp [h])]
  · intro h
    rw [store_c_locks, if_pos h]
  · intro h
    rw [store_c_locks, if_neg (by simp [h])]
  · intro h
    rw [cas_c_locks, if_pos h]
  · intro h
    rw [cas_c_locks, if_neg (by simp [h])]
  · intro h
    rw [exchange_c_locks, if_pos h]
  · intro h
    rw [exchange_c_locks, if_neg (by simp [h])]
  · intro h
    rw [load_sized_locks, if_pos h]
  · intro h
    rw [load_sized_locks, if_neg (by simp [h])]
  · intro h
    rw [store_sized_locks, if_pos h]
  · intro h
    rw [store_sized_locks, if_neg (by simp [h])]
  · intro h
    rw [exchange_sized_locks, if_pos h]
  · intro h
    rw [exchange_sized_locks, if_neg (by simp [h])]
  · intro h
    rw [cas_sized_locks, if_pos h]
  · intro h
    rw [cas_sized_locks, if_neg (by simp [h])]
  · intro op h
    rw [fetch_sized_locks, if_pos h]
  · intro op h
    rw [fetch_sized_locks, if_neg (by simp [h])]
  · intro op h
    rw [fetch_op_c_eq_sized, fetch_sized_locks, if_pos h]
  · intro op h
    rw [fetch_op_c_eq_sized, fetch_sized_locks, if_neg (by simp [h])]

/-- C8: no operation allocates or frees anything in the model, and every
state mutation is confined to the byte regions named by the operation's
pointer arguments plus the one hashed lock slot: every byte outside those
regions and every other lock slot is left unchanged, for every generic and
size-specialized entry point. -/
theorem c8_frame (lf : Nat → Bool)
    (size src dest ptr expected desired val old model su fa : Nat) (s : AtomicState) :
    (∀ a, (a < dest ∨ dest + size ≤ a) →
      (__atomic_load_c lf size src dest model s).st.mem a = s.mem a) ∧
    (∀ i, i ≠ lock_for_pointer src →
      (__atomic_load_c lf size src dest model s).st.locks i = s.locks i) ∧
    (∀ a, (a < dest ∨ dest + size ≤ a) →
      (__atomic_store_c lf size dest src model s).st.mem a = s.mem a) ∧
    (∀ i, i ≠ lock_for_pointer dest →
      (__atomic_store_c lf size dest src model s).st.locks i = s.locks i) ∧
    (∀ a, (a < ptr ∨ ptr + size ≤ a) → (a < expected ∨ expected + size ≤ a) →
      (__atomic_compare_exchange_c lf size ptr expected desired su fa s).st.mem a =
        s.mem a) ∧
    (∀ i, i ≠ lock_for_pointer ptr →
      (__atomic_compare_exchange_c lf size ptr expected desired su fa s).st.locks i =
        s.locks i) ∧
    (∀ a, (a < ptr ∨ ptr + size ≤ a) → (a < old ∨ old + size ≤ a) →
      (__atomic_exchange_c lf size ptr val old model s).st.mem a = s.mem a) ∧
    (∀ i, i ≠ lock_for_pointer ptr →
      (__atomic_exchange_c lf size ptr val old model s).st.locks i = s.locks i) ∧
    ((__atomic_load_sized lf size src model s).st.mem = s.mem) ∧
    (∀ i, i ≠ lock_for_pointer src →
      (__atomic_load_sized lf size src model s).st.locks i = s.locks i) ∧
    (∀ a, (a < dest ∨ dest + size ≤ a) →
      (__atomic_store_sized lf size dest val model s).st.mem a = s.mem a) ∧
    (∀ i, i ≠ lock_for_pointer dest →
      (__atomic_store_sized lf size dest val model s).st.locks i = s.locks i) ∧
    (∀ a, (a < dest ∨ dest + size ≤ a) →
      (__atomic_exchange_sized lf size dest val model s).st.mem a = s.mem a) ∧
    (∀ i, i ≠ lock_for_pointer dest →
      (__atomic_exchange_sized lf size dest val model s).st.locks i = s.locks i) ∧
    (∀ a, (a < ptr ∨ ptr + size ≤ a) → (a < expected ∨ expected + size ≤ a) →
      (__atomic_compare_exchange_sized lf size ptr expected desired su fa s).st.mem a =
        s.mem a) ∧
    (∀ i, i ≠ lock_for_pointer ptr →
      (__atomic_compare_exchange_sized lf size ptr expected desired su fa s).st.locks i =
        s.locks i) ∧
    (∀ (op : RMWOp) a, (a < ptr ∨ ptr + size ≤ a) →
      (__atomic_fetch_sized op lf size ptr val model s).st.mem a = s.mem a) ∧
    (∀ (op : RMWOp) i, i ≠ lock_for_pointer ptr →
      (__atomic_fetch_sized op lf size ptr val model s).st.locks i = s.locks i) ∧
    (∀ (op : RMWOp) a, (a < ptr ∨ ptr + size ≤ a) →
      (fetch_op_c op lf size ptr val model s).st.mem a = s.mem a) ∧
    (∀ (op : RMWOp) i, i ≠ lock_for_pointer ptr →
      (fetch_op_c op lf size ptr val model s).st.locks i = s.locks i) := by
  refine ⟨?_, ?_, ?_, ?_, ?_, ?_, ?_, ?_, load_sized_mem lf size src model s,
    ?_, ?_, ?_, ?_, ?_, ?_, ?_, ?_, ?_, ?_, ?_⟩
  · intro a ha
    simp only [__atomic_load_c]
    split
    · exact writeBytes_outside _ _ _ _ (by rw [natToBytes_length]; omega)
    · exact writeBytes_outside _ _ _ _ (by rw [readBytes_length]; omega)
  · intro i hi
    rw [load_c_locks]
    split
    · rfl
    · exact releaseLock_other _ _ _ hi
  · intro a ha
    simp only [__atomic_store_c]
    split
    · exact writeBytes_outside _ _ _ _ (by rw [natToBytes_length]; omega)
    · exact writeBytes_outside _ _ _ _ (by rw [readBytes_length]; omega)
  · intro i hi
    rw [store_c_locks]
    split
    · rfl
    · exact releaseLock_other _ _ _ hi
  · intro a ha hb
    simp only [__atomic_compare_exchange_c]
    split
    · split
      · exact writeBytes_outside _ _ _ _ (by rw [natToBytes_length]; omega)
      · exact writeBytes_outside _ _ _ _ (by rw [natToBytes_length]; omega)
    · split
      · exact writeBytes_outside _ _ _ _ (by rw [readBytes_length]; omega)
      · exact writeBytes_outside _ _ _ _ (by rw [readBytes_length]; omega)
  · intro i hi
    rw [cas_c_locks]
    split
    · rfl
    · exact releaseLock_other _ _ _ hi
  · intro a ha hb
    simp only [__atomic_exchange_c]
    split
    · exact writeBytes_outside2 _ _ _ _ _ _ (by rw [natToBytes_length]; omega)
        (by rw [natToBytes_length]; omega)
    · exact writeBytes_outside2 _ _ _ _ _ _ (by rw [readBytes_length]; omega)
        (by rw [readBytes_length]; omega)
  · intro i hi
    rw [exchange_c_locks]
    split
    · rfl
    · exact releaseLock_other _ _ _ hi
  · intro i hi
    rw [load_sized_locks]
    split
    · rfl
    · exact releaseLock_other _ _ _ hi
  · intro a ha
    rw [store_sized_mem]
    exact writeBytes_outside _ _ _ _ (by rw [natToBytes_length]; omega)
  · intro i hi
    rw [store_sized_locks]
    split
    · rfl
    · exact releaseLock_other _ _ _ hi
  · intro a ha
    rw [exchange_sized_mem]
    exact writeBytes_outside _ _ _ _ (by rw [natToBytes_length]; omega)
  · intro i hi
    rw [exchange_sized_locks]
    split
    · rfl
    · exact releaseLock_other _ _ _ hi
  · intro a ha hb
    by_cases hv : bytesToNat (readBytes s.mem ptr size) =
        bytesToNat (readBytes s.mem expected size)
    · rw [cas_sized_mem_success _ _ _ _ _ _ _ _ hv]
      exact writeBytes_outside _ _ _ _ (by rw [natToBytes_length]; omega)
    · rw [cas_sized_mem_failure _ _ _ _ _ _ _ _ hv]
      exact writeBytes_outside _ _ _ _ (by rw [natToBytes_length]; omega)
  · intro i hi
    rw [cas_sized_locks]
    split
    · rfl
    · exact releaseLock_other _ _ _ hi
  · intro op a ha
    rw [fetch_sized_mem]
    exact writeBytes_outside _ _ _ _ (by rw [natToBytes_length]; omega)
  · intro op i hi
    rw [fetch_sized_locks]
    split
    · rfl
    · exact releaseLock_other _ _ _ hi
  · intro op a ha
    rw [fetch_op_c_eq_sized, fetch_sized_mem]
    exact writeBytes_outside _ _ _ _ (by rw [natToBytes_length]; omega)
  · intro op i hi
    rw [fetch_op_c_eq_sized, fetch_sized_locks]
    split
    · rfl
    · exact releaseLock_other _ _ _ hi

/-- C6: each size-specialized entry point is semantically identical to
invoking the generic call (runtime byte size) with the literal size `n`:
the same dispatch path is taken, the same lock effects occur, the returned
values correspond to the byte buffers of the generic call through the
byte/value codec, and the final memory contents coincide.  The generic
`fetch_op` family is modelled from the spec's public surface (the source
has only the size-specialized `ATOMIC_RMW` instantiations). -/
theorem c6_sized_matches_generic (lf : Nat → Bool) (n : Nat) (s : AtomicState)
    (hm : ValidMem s.mem) :
    (∀ src dest model,
      (__atomic_load_c lf n src dest model s).fast =
        (__atomic_load_sized lf n src model s).fast ∧
      (__atomic_load_c lf n src dest model s).st.locks =
        (__atomic_load_sized lf n src model s).st.locks ∧
      (__atomic_load_c lf n src dest model s).st.mem =
        writeBytes s.mem dest (natToBytes (__atomic_load_sized lf n src model s).val n)) ∧
    (∀ dest src v model, bytesToNat (readBytes s.mem src n) = v →
      (__atomic_store_c lf n dest src model s).fast =
        (__atomic_store_sized lf n dest v model s).fast ∧
      (__atomic_store_c lf n dest src model s).st.locks =
        (__atomic_store_sized lf n dest v model s).st.locks ∧
      (__atomic_store_c lf n dest src model s).st.mem =
        (__atomic_store_sized lf n dest v model s).st.mem) ∧
    (∀ ptr val old v model, bytesToNat (readBytes s.mem val n) = v →
      Disj ptr n old n → Disj val n old n →
      (__atomic_exchange_c lf n ptr val old model s).fast =
        (__atomic_exchange_sized lf n ptr v model s).fast ∧
      (__atomic_exchange_c lf n ptr val old model s).st.locks =
        (__atomic_exchange_sized lf n ptr v model s).st.locks ∧
      (__atomic_exchange_sized lf n ptr v model s).val =
        bytesToNat (readBytes s.mem ptr n) ∧
      readBytes (__atomic_exchange_c lf n ptr val old model s).st.mem old n =
        natToBytes (__atomic_exchange_sized lf n ptr v model s).val n ∧
      (∀ a, (a < old ∨ old + n ≤ a) →
        (__atomic_exchange_c lf n ptr val old model s).st.mem a =
          (__atomic_exchange_sized lf n ptr v model s).st.mem a)) ∧
    (∀ ptr expected desired dv su fa, bytesToNat (readBytes s.mem desired n) = dv →
      (__atomic_compare_exchange_c lf n ptr expected desired su fa s).ok =
        (__atomic_compare_exchange_sized lf n ptr expected dv su fa s).ok ∧
      (__atomic_compare_exchange_c lf n ptr expected desired su fa s).st.locks =
        (__atomic_compare_exchange_sized lf n ptr expected dv su fa s).st.locks ∧
      (__atomic_compare_exchange_c lf n ptr expected desired su fa s).fast =
        (__atomic_compare_exchange_sized lf n ptr expected dv su fa s).fast ∧
      (__atomic_compare_exchange_c lf n ptr expected desired su fa s).st.mem =
        (__atomic_compare_exchange_sized lf n ptr expected dv su fa s).st.mem) ∧
    (∀ (op : RMWOp) ptr operand model,
      fetch_op_c op lf n ptr operand model s =
        __atomic_fetch_sized op lf n ptr operand model s) := by
  refine ⟨?_, ?_, ?_, ?_, fun op ptr operand model => fetch_op_c_eq_sized op lf n ptr
    operand model s⟩
  · intro src dest model
    refine ⟨?_, ?_, ?_⟩
    · rw [load_c_fast, load_sized_fast]
    · rw [load_c_locks, load_sized_locks]
    · rw [load_c_mem _ _ _ _ _ _ hm, load_sized_val, natToBytes_readBytes _ hm]
  · intro dest src v model hv
    refine ⟨?_, ?_, ?_⟩
    · rw [store_c_fast, store_sized_fast]
    · rw [store_c_locks, store_sized_locks]
    · rw [store_c_mem _ _ _ _ _ _ hm, store_sized_mem, ← hv, natToBytes_readBytes _ hm]
  · intro ptr val old v model hv hpo hvo
    have hvb : readBytes s.mem val n = natToBytes v n := by
      rw [← hv, natToBytes_readBytes _ hm]
    refine ⟨?_, ?_, exchange_sized_val lf n ptr v model s, ?_, ?_⟩
    · rw [exchange_c_fast, exchange_sized_fast]
    · rw [exchange_c_locks, exchange_sized_locks]
    · rw [exchange_c_mem _ _ _ _ _ _ _ hm hpo hvo, exchange_sized_val,
        natToBytes_readBytes _ hm,
        readBytes_writeBytes_disjoint _ _ _ _ _
          (by rw [readBytes_length]; exact disj_symm hpo)]
      exact readBytes_writeBytes_of_length _ _ _ _ (readBytes_length _ _ _)
    · intro a ha
      rw [exchange_c_mem _ _ _ _ _ _ _ hm hpo hvo, exchange_sized_mem, hvb,
        writeBytes_apply (writeBytes s.mem old (readBytes s.mem ptr n)) ptr
          (natToBytes v n) a,
        writeBytes_apply s.mem ptr (natToBytes v n) a]
      by_cases hin : ptr ≤ a ∧ a < ptr + (natToBytes v n).length
      · rw [if_pos hin, if_pos hin]
      · rw [if_neg hin, if_neg hin]
        exact writeBytes_outside _ _ _ _ (by rw [readBytes_length]; omega)
  · intro ptr expected desired dv su fa hdv
    have hdb : readBytes s.mem desired n = natToBytes dv n := by
      rw [← hdv, natToBytes_readBytes _ hm]
    by_cases hb : readBytes s.mem ptr n = readBytes s.mem expected n
    · have hveq : bytesToNat (readBytes s.mem ptr n) =
          bytesToNat (readBytes s.mem expected n) := by rw [hb]
      refine ⟨?_, ?_, ?_, ?_⟩
      · rw [(cas_c_ok lf n ptr expected desired su fa s hm).mpr hb, cas_sized_ok]
        simp [hveq]
      · rw [cas_c_locks, cas_sized_locks]
      · rw [cas_c_fast, cas_sized_fast]
      · rw [cas_c_mem_success _ _ _ _ _ _ _ _ hm hb, cas_sized_mem_success _ _ _ _ _ _ _ _ hveq,
          hdb]
    · have hvne : ¬ bytesToNat (readBytes s.mem ptr n) =
          bytesToNat (readBytes s.mem expected n) := fun h =>
        hb (bytesToNat_inj _ _ (validBytes_readBytes s.mem hm ptr n)
          (validBytes_readBytes s.mem hm expected n)
          (by rw [readBytes_length, readBytes_length]) h)
      have h1 : (__atomic_compare_exchange_c lf n ptr expected desired su fa s).ok =
          false := by
        have := cas_c_ok lf n ptr expected desired su fa s hm
        rcases hok : (__atomic_compare_exchange_c lf n ptr expected desired su fa s).ok
        · rfl
        · exact absurd (this.mp hok) hb
      refine ⟨?_, ?_, ?_, ?_⟩
      · rw [h1, cas_sized_ok]
        simp [hvne]
      · rw [cas_c_locks, cas_sized_locks]
      · rw [cas_c_fast, cas_sized_fast]
      · rw [cas_c_mem_failure _ _ _ _ _ _ _ _ hm hb, cas_sized_mem_failure _ _ _ _ _ _ _ _ hvne,
          natToBytes_readBytes _ hm]

/-! ### Lemmas for the concurrent counter model -/

theorem get?_set_self (ts : List TState) (i : Nat) (t t' : TState)
    (h : ts.get? i = some t) : (ts.set i t').get? i = some t' := by
  induction ts generalizing i with
  | nil => simp at h
  | cons a as ih =>
    cases i with
    | zero => rfl
    | succ j =>
      simp only [List.set_cons_succ, List.get?_cons_succ] at h ⊢
      exact ih j h

theorem get?_set_other (ts : List TState) (i j : Nat) (t' : TState) (h : j ≠ i) :
    (ts.set i t').get? j = ts.get? j := by
  induction ts generalizing i j with
  | nil => simp
  | cons a as ih =>
    cases i with
    | zero =>
      cases j with
      | zero => exact absurd rfl h
      | succ j2 => rfl
    | succ i2 =>
      cases j with
      | zero => rfl
      | succ j2 =>
        simp only [List.set_cons_succ, List.get?_cons_succ]
        exact ih i2 j2 (fun hc => h (by rw [hc]))

theorem set_self_of_get? (ts : List TState) (i : Nat) (t : TState)
    (h : ts.get? i = some t) : ts.set i t = ts := by
  induction ts generalizing i with
  | nil => simp at h
  | cons a as ih =>
    cases i with
    | zero =>
      simp only [List.get?_cons_zero, Option.some.injEq] at h
      rw [h]
      rfl
    | succ j =>
      simp only [List.get?_cons_succ] at h
      simp only [List.set_cons_succ]
      rw [ih j h]

theorem writesCount_set (ts : List TState) (i : Nat) (t t' : TState)
    (h : ts.get? i = some t) :
    writesCount (ts.set i t') + contrib t = writesCount ts + contrib t' := by
  induction ts generalizing i with
  | nil => simp at h
  | cons a as ih =>
    cases i with
    | zero =>
      simp only [List.get?_cons_zero, Option.some.injEq] at h
      subst h
      simp only [List.set_cons_zero, writesCount, List.map_cons, List.sum_cons]
      omega
    | succ j =>
      simp only [List.get?_cons_succ] at h
      simp only [List.set_cons_succ, writesCount, List.map_cons, List.sum_cons]
      have := ih j h
      unfold writesCount at this
      omega

theorem get?_replicate (n i : Nat) (a b : TState)
    (h : (List.replicate n a).get? i = some b) : b = a := by
  induction n generalizing i with
  | zero => simp at h
  | succ k ih =>
    cases i with
    | zero =>
      simp only [List.replicate_succ, List.get?_cons_zero, Option.some.injEq] at h
      exact h.symm
    | succ j =>
      simp only [List.replicate_succ, List.get?_cons_succ] at h
      exact ih j h

theorem stepT_length (W M : Nat) (g : CounterState) (i : Nat) :
    (stepT W M g i).threads.length = g.threads.length := by
  unfold stepT
  split
  · rfl
  · split
    · split
      · simp [List.length_set]
      · rfl
    · simp [List.length_set]
    · simp [List.length_set]
    · simp [List.length_set]

theorem execSched_length (W M : Nat) (sched : List Nat) (g : CounterState) :
    (execSched W M sched g).threads.length = g.threads.length := by
  induction sched generalizing g with
  | nil => rfl
  | cons i rest ih =>
    simp only [execSched, List.foldl_cons] at ih ⊢
    rw [ih (stepT W M g i), stepT_length]

theorem execSched_append (W M : Nat) (l1 l2 : List Nat) (g : CounterState) :
    execSched W M (l1 ++ l2) g = execSched W M l2 (execSched W M l1 g) := by
  simp [execSched, List.foldl_append]

theorem stepT_eq_none (W M : Nat) (g : CounterState) (i : Nat)
    (h : g.threads.get? i = none) : stepT W M g i = g := by
  unfold stepT
  rw [h]

theorem stepT_eq_spin (W M : Nat) (g : CounterState) (i d : Nat)
    (h : g.threads.get? i = some ⟨d, Phase.ready⟩)
    (hc : ¬ (d < M ∧ g.lockHeld = false)) : stepT W M g i = g := by
  unfold stepT
  rw [h]
  exact if_neg hc

theorem stepT_eq_acquire (W M : Nat) (g : CounterState) (i d : Nat)
    (h : g.threads.get? i = some ⟨d, Phase.ready⟩)
    (hd : d < M) (hl : g.lockHeld = false) :
    stepT W M g i = ⟨true, g.v, g.threads.set i ⟨d, Phase.acquired⟩⟩ := by
  unfold stepT
  rw [h]
  exact if_pos ⟨hd, hl⟩

theorem stepT_eq_read (W M : Nat) (g : CounterState) (i d : Nat)
    (h : g.threads.get? i = some ⟨d, Phase.acquired⟩) :
    stepT W M g i = ⟨g.lockHeld, g.v, g.threads.set i ⟨d, Phase.readTmp g.v⟩⟩ := by
  unfold stepT
  rw [h]

theorem stepT_eq_write (W M : Nat) (g : CounterState) (i d tmp : Nat)
    (h : g.threads.get? i = some ⟨d, Phase.readTmp tmp⟩) :
    stepT W M g i = ⟨g.lockHeld, (tmp + 1) % W, g.threads.set i ⟨d, Phase.wrote⟩⟩ := by
  unfold stepT
  rw [h]

theorem stepT_eq_release (W M : Nat) (g : CounterState) (i d : Nat)
    (h : g.threads.get? i = some ⟨d, Phase.wrote⟩) :
    stepT W M g i = ⟨false, g.v, g.threads.set i ⟨d + 1, Phase.ready⟩⟩ := by
  unfold stepT
  rw [h]

theorem stepT_inv (W M : Nat) (g : CounterState) (i : Nat) (h : CounterInv W g) :
    CounterInv W (stepT W M g i) := by
  obtain ⟨hv, hfree, hmutex, htmp⟩ := h
  cases hg : g.threads.get? i with
  | none =>
    rw [stepT_eq_none W M g i hg]
    exact ⟨hv, hfree, hmutex, htmp⟩
  | some t =>
    obtain ⟨d, ph⟩ := t
    cases ph with
    | ready =>
      by_cases hc : d < M ∧ g.lockHeld = false
      · rw [stepT_eq_acquire W M g i d hg hc.1 hc.2]
        have hall : ∀ j u, g.threads.get? j = some u → u.phase = Phase.ready :=
          fun j u hu => hfree hc.2 j u hu
        refine ⟨?_, ?_, ?_, ?_⟩
        · show g.v = writesCount (g.threads.set i ⟨d, Phase.acquired⟩) % W
          have hw := writesCount_set g.threads i ⟨d, Phase.ready⟩ ⟨d, Phase.acquired⟩ hg
          simp [contrib] at hw
          have hww : writesCount (g.threads.set i ⟨d, Phase.acquired⟩) =
              writesCount g.threads := by omega
          rw [hww]
          exact hv
        · intro hfalse
          simp at hfalse
        · intro i' t'' hi' hph' j u hj hne
          by_cases hii : i' = i
          · rw [hii] at hne
            by_cases hji : j = i
            · exact absurd hji hne
            · rw [get?_set_other _ _ _ _ hji] at hj
              exact hall j u hj
          · rw [get?_set_other _ _ _ _ hii] at hi'
            exact absurd (hall i' t'' hi') hph'
        · intro i' t'' hi' tmp hph'
          by_cases hii : i' = i
          · rw [hii] at hi'
            rw [get?_set_self _ _ _ _ hg] at hi'
            simp only [Option.some.injEq] at hi'
            subst hi'
            simp at hph'
          · rw [get?_set_other _ _ _ _ hii] at hi'
            rw [hall i' t'' hi'] at hph'
            simp at hph'
      · rw [stepT_eq_spin W M g i d hg hc]
        exact ⟨hv, hfree, hmutex, htmp⟩
    | acquired =>
      rw [stepT_eq_read W M g i d hg]
      have hlock : g.lockHeld = true := by
        cases hl : g.lockHeld
        · have := hfree hl i ⟨d, Phase.acquired⟩ hg
          simp at this
        · rfl
      have hothers : ∀ j u, g.threads.get? j = some u → j ≠ i → u.phase = Phase.ready :=
        fun j u hj hne => hmutex i ⟨d, Phase.acquired⟩ hg (by simp) j u hj hne
      refine ⟨?_, ?_, ?_, ?_⟩
      · show g.v = writesCount (g.threads.set i ⟨d, Phase.readTmp g.v⟩) % W
        have hw := writesCount_set g.threads i ⟨d, Phase.acquired⟩ ⟨d, Phase.readTmp g.v⟩ hg
        simp [contrib] at hw
        have hww : writesCount (g.threads.set i ⟨d, Phase.readTmp g.v⟩) =
            writesCount g.threads := by omega
        rw [hww]
        exact hv
      · intro hfalse
        show ∀ i' t'', (g.threads.set i ⟨d, Phase.readTmp g.v⟩).get? i' = some t'' →
          t''.phase = Phase.ready
        rw [hlock] at hfalse
        simp at hfalse
      · intro i' t'' hi' hph' j u hj hne
        by_cases hii : i' = i
        · rw [hii] at hne
          by_cases hji : j = i
          · exact absurd hji hne
          · rw [get?_set_other _ _ _ _ hji] at hj
            exact hothers j u hj hji
        · rw [get?_set_other _ _ _ _ hii] at hi'
          exact absurd (hothers i' t'' hi' hii) hph'
      · intro i' t'' hi' tmp hph'
        by_cases hii : i' = i
        · rw [hii] at hi'
          rw [get?_set_self _ _ _ _ hg] at hi'
          simp only [Option.some.injEq] at hi'
          subst hi'
          simp only [Phase.readTmp.injEq] at hph'
          exact hph'.symm
        · rw [get?_set_other _ _ _ _ hii] at hi'
          rw [hothers i' t'' hi' hii] at hph'
          simp at hph'
    | readTmp tmp =>
      rw [stepT_eq_write W M g i d tmp hg]
      have hlock : g.lockHeld = true := by
        cases hl : g.lockHeld
        · have := hfree hl i ⟨d, Phase.readTmp tmp⟩ hg
          simp at this
        · rfl
      have hothers : ∀ j u, g.threads.get? j = some u → j ≠ i → u.phase = Phase.ready :=
        fun j u hj hne => hmutex i ⟨d, Phase.readTmp tmp⟩ hg (by simp) j u hj hne
      have htmpv : tmp = g.v := htmp i ⟨d, Phase.readTmp tmp⟩ hg tmp rfl
      refine ⟨?_, ?_, ?_, ?_⟩
      · show (tmp + 1) % W = writesCount (g.threads.set i ⟨d, Phase.wrote⟩) % W
        have hw := writesCount_set g.threads i ⟨d, Phase.readTmp tmp⟩ ⟨d, Phase.wrote⟩ hg
        simp [contrib] at hw
        have hww : writesCount (g.threads.set i ⟨d, Phase.wrote⟩) =
            writesCount g.threads + 1 := by omega
        rw [hww, htmpv, hv, Nat.mod_add_mod]
      · intro hfalse
        show ∀ i' t'', (g.threads.set i ⟨d, Phase.wrote⟩).get? i' = some t'' →
          t''.phase = Phase.ready
        rw [hlock] at hfalse
        simp at hfalse
      · intro i' t'' hi' hph' j u hj hne
        by_cases hii : i' = i
        · rw [hii] at hne
          by_cases hji : j = i
          · exact absurd hji hne
          · rw [get?_set_other _ _ _ _ hji] at hj
            exact hothers j u hj hji
        · rw [get?_set_other _ _ _ _ hii] at hi'
          exact absurd (hothers i' t'' hi' hii) hph'
      · intro i' t'' hi' tmp2 hph'
        by_cases hii : i' = i
        · rw [hii] at hi'
          rw [get?_set_self _ _ _ _ hg] at hi'
          simp only [Option.some.injEq] at hi'
          subst hi'
          simp at hph'
        · rw [get?_set_other _ _ _ _ hii] at hi'
          rw [hothers i' t'' hi' hii] at hph'
          simp at hph'
    | wrote =>
      rw [stepT_eq_release W M g i d hg]
      have hothers : ∀ j u, g.threads.get? j = some u → j ≠ i → u.phase = Phase.ready :=
        fun j u hj hne => hmutex i ⟨d, Phase.wrote⟩ hg (by simp) j u hj hne
      refine ⟨?_, ?_, ?_, ?_⟩
      · show g.v = writesCount (g.threads.set i ⟨d + 1, Phase.ready⟩) % W
        have hw := writesCount_set g.threads i ⟨d, Phase.wrote⟩ ⟨d + 1, Phase.ready⟩ hg
        simp [contrib] at hw
        have hww : writesCount (g.threads.set i ⟨d + 1, Phase.ready⟩) =
            writesCount g.threads := by omega
        rw [hww]
        exact hv
      · intro _ i' t'' hi'
        by_cases hii : i' = i
        · rw [hii] at hi'
          rw [get?_set_self _ _ _ _ hg] at hi'
          simp only [Option.some.injEq] at hi'
          subst hi'
          rfl
        · rw [get?_set_other _ _ _ _ hii] at hi'
          exact hothers i' t'' hi' hii
      · intro i' t'' hi' hph'
        by_cases hii : i' = i
        · rw [hii] at hi'
          rw [get?_set_self _ _ _ _ hg] at hi'
          simp only [Option.some.injEq] at hi'
          subst hi'
          exact absurd rfl hph'
        · rw [get?_set_other _ _ _ _ hii] at hi'
          exact absurd (hothers i' t'' hi' hii) hph'
      · intro i' t'' hi' tmp2 hph'
        by_cases hii : i' = i
        · rw [hii] at hi'
          rw [get?_set_self _ _ _ _ hg] at hi'
          simp only [Option.some.injEq] at hi'
          subst hi'
          simp at hph'
        · rw [get?_set_other _ _ _ _ hii] at hi'
          rw [hothers i' t'' hi' hii] at hph'
          simp at hph'

theorem execSched_inv (W M : Nat) (sched : List Nat) (g : CounterState)
    (h : CounterInv W g) : CounterInv W (execSched W M sched g) := by
  induction sched generalizing g with
  | nil => exact h
  | cons i rest ih => exact ih (stepT W M g i) (stepT_inv W M g i h)

theorem writesCount_replicate_zero (N : Nat) :
    writesCount (List.replicate N ⟨0, Phase.ready⟩) = 0 := by
  induction N with
  | zero => rfl
  | succ k ih =>
    rw [List.replicate_succ]
    unfold writesCount at ih ⊢
    simp only [List.map_cons, List.sum_cons]
    simp [contrib, ih]

theorem initCounter_inv (W N : Nat) : CounterInv W (initCounter N) := by
  refine ⟨?_, ?_, ?_, ?_⟩
  · show (0 : Nat) = writesCount (List.replicate N ⟨0, Phase.ready⟩) % W
    rw [writesCount_replicate_zero]
    simp
  · intro _ i t hi
    rw [get?_replicate N i _ t hi]
  · intro i t hi hph
    rw [get?_replicate N i _ t hi] at hph
    simp at hph
  · intro i t hi tmp hph
    rw [get?_replicate N i _ t hi] at hph
    simp at hph

theorem sum_contrib_const (ts : List TState) (c : Nat) (h : ∀ t ∈ ts, contrib t = c) :
    writesCount ts = ts.length * c := by
  induction ts with
  | nil => simp [writesCount]
  | cons a as ih =>
    unfold writesCount at ih ⊢
    simp only [List.map_cons, List.sum_cons, List.length_cons]
    rw [h a (by simp), ih (fun t ht => h t (by simp [ht]))]
    ring

/-- C9 (amended): when `N` threads each run `fetch_add(ptr, 1)` `M` times on
one slow-path location, every interleaving of the fine-grained steps of the
lock/read/write/unlock protocol that completes all `N * M` calls leaves the
location holding `(N * M) % W`, where `W` is the modulus of the location's
width (`2 ^ (8 * size)`); this is exactly `N * M` whenever `N * M < W`, but
wraps otherwise, refuting the unqualified original claim. -/
theorem c9_fetch_add_interleaving (W M N : Nat) (sched : List Nat)
    (hfin : finishedAll M (execSched W M sched (initCounter N))) :
    (execSched W M sched (initCounter N)).v = (N * M) % W := by
  obtain ⟨hv, -, -, -⟩ := execSched_inv W M sched (initCounter N) (initCounter_inv W N)
  rw [hv]
  congr 1
  have hlen : (execSched W M sched (initCounter N)).threads.length = N := by
    rw [execSched_length]
    simp [initCounter]
  have hall : ∀ t ∈ (execSched W M sched (initCounter N)).threads, contrib t = M := by
    intro t ht
    obtain ⟨h1, h2⟩ := hfin t ht
    simp [contrib, h1, h2]
  rw [sum_contrib_const _ M hall, hlen, Nat.mul_comm]

theorem set_set_self (ts : List TState) (i : Nat) (t1 t2 : TState) :
    (ts.set i t1).set i t2 = ts.set i t2 := by
  induction ts generalizing i with
  | nil => rfl
  | cons a as ih =>
    cases i with
    | zero => rfl
    | succ j =>
      simp only [List.set_cons_succ]
      rw [ih]

theorem run_thread_once (W M i d v : Nat) (ts : List TState)
    (h : ts.get? i = some ⟨d, Phase.ready⟩) (hd : d < M) :
    execSched W M [i, i, i, i] ⟨false, v, ts⟩ =
      ⟨false, (v + 1) % W, ts.set i ⟨d + 1, Phase.ready⟩⟩ := by
  have e1 : stepT W M ⟨false, v, ts⟩ i = ⟨true, v, ts.set i ⟨d, Phase.acquired⟩⟩ :=
    stepT_eq_acquire W M ⟨false, v, ts⟩ i d h hd rfl
  have e2 : stepT W M ⟨true, v, ts.set i ⟨d, Phase.acquired⟩⟩ i =
      ⟨true, v, ts.set i ⟨d, Phase.readTmp v⟩⟩ := by
    rw [stepT_eq_read W M ⟨true, v, ts.set i ⟨d, Phase.acquired⟩⟩ i d
      (get?_set_self ts i _ _ h), set_set_self]
  have e3 : stepT W M ⟨true, v, ts.set i ⟨d, Phase.readTmp v⟩⟩ i =
      ⟨true, (v + 1) % W, ts.set i ⟨d, Phase.wrote⟩⟩ := by
    rw [stepT_eq_write W M ⟨true, v, ts.set i ⟨d, Phase.readTmp v⟩⟩ i d v
      (get?_set_self ts i _ _ h), set_set_self]
  have e4 : stepT W M ⟨true, (v + 1) % W, ts.set i ⟨d, Phase.wrote⟩⟩ i =
      ⟨false, (v + 1) % W, ts.set i ⟨d + 1, Phase.ready⟩⟩ := by
    rw [stepT_eq_release W M ⟨true, (v + 1) % W, ts.set i ⟨d, Phase.wrote⟩⟩ i d
      (get?_set_self ts i _ _ h), set_set_self]
  show stepT W M (stepT W M (stepT W M (stepT W M ⟨false, v, ts⟩ i) i) i) i = _
  rw [e1, e2, e3, e4]

theorem run_thread_iters (W M i : Nat) (k : Nat) :
    ∀ (d v : Nat) (ts : List TState),
      ts.get? i = some ⟨d, Phase.ready⟩ → v < W → d + k ≤ M →
      execSched W M (List.replicate (4 * k) i) ⟨false, v, ts⟩ =
        ⟨false, (v + k) % W, ts.set i ⟨d + k, Phase.ready⟩⟩ := by
  induction k with
  | zero =>
    intro d v ts h hv hk
    simp only [Nat.mul_zero, List.replicate, execSched, List.foldl_nil, Nat.add_zero]
    rw [Nat.mod_eq_of_lt hv, set_self_of_get? ts i _ h]
  | succ k ih =>
    intro d v ts h hv hk
    have hrep : List.replicate (4 * (k + 1)) i =
        List.replicate 4 i ++ List.replicate (4 * k) i := by
      rw [← List.replicate_add]
      congr 1
      ring
    rw [hrep, execSched_append]
    have h4 : execSched W M (List.replicate 4 i) ⟨false, v, ts⟩ =
        ⟨false, (v + 1) % W, ts.set i ⟨d + 1, Phase.ready⟩⟩ := by
      show execSched W M [i, i, i, i] ⟨false, v, ts⟩ = _
      exact run_thread_once W M i d v ts h (by omega)
    rw [h4, ih (d + 1) ((v + 1) % W) (ts.set i ⟨d + 1, Phase.ready⟩)
      (get?_set_self ts i _ _ h) (Nat.mod_lt _ (by omega)) (by omega),
      set_set_self]
    have hv2 : ((v + 1) % W + k) % W = (v + (k + 1)) % W := by
      rw [Nat.mod_add_mod]
      congr 1
      omega
    have hd2 : d + 1 + k = d + (k + 1) := by omega
    rw [hv2, hd2]

/-- C9 counterexample: with a 1-byte location (modulus 256), 2 threads each
performing 128 slow-path `fetch_add(ptr, 1)` calls complete under the
sequential interleaving, yet the final value is 0, not `2 * 128 = 256`:
the stored value wraps at the location's width. -/
theorem c9_counterexample :
    finishedAll 128 (execSched 256 128
      (List.replicate 512 0 ++ List.replicate 512 1) (initCounter 2)) ∧
    ¬ (execSched 256 128 (List.replicate 512 0 ++ List.replicate 512 1)
      (initCounter 2)).v = 2 * 128 := by
  have h512 : (512 : Nat) = 4 * 128 := by norm_num
  have h0 : (initCounter 2).threads.get? 0 = some ⟨0, Phase.ready⟩ := rfl
  have e1 : execSched 256 128 (List.replicate 512 0) (initCounter 2) =
      ⟨false, 128, [⟨128, Phase.ready⟩, ⟨0, Phase.ready⟩]⟩ := by
    rw [h512]
    have := run_thread_iters 256 128 0 128 0 0 (initCounter 2).threads h0
      (by norm_num) (by norm_num)
    exact this.trans (by decide)
  have h1 : ([⟨128, Phase.ready⟩, ⟨0, Phase.ready⟩] : List TState).get? 1 =
      some ⟨0, Phase.ready⟩ := rfl
  have e2 : execSched 256 128 (List.replicate 512 1)
      (⟨false, 128, [⟨128, Phase.ready⟩, ⟨0, Phase.ready⟩]⟩ : CounterState) =
      ⟨false, 0, [⟨128, Phase.ready⟩, ⟨128, Phase.ready⟩]⟩ := by
    rw [h512]
    have := run_thread_iters 256 128 1 128 0 128
      [⟨128, Phase.ready⟩, ⟨0, Phase.ready⟩] h1 (by norm_num) (by norm_num)
    exact this.trans (by decide)
  rw [execSched_append, e1, e2]
  constructor
  · decide
  · decide

/-- C9 witness: a single thread completing one call on a 1-byte slow-path
location over the sequential schedule leaves the value `1 = (1 * 1) % 256`. -/
theorem c9_fetch_add_interleaving_witness :
    (execSched 256 1 [0, 0, 0, 0] (initCounter 1)).v = (1 * 1) % 256 :=
  c9_fetch_add_interleaving 256 1 1 [0, 0, 0, 0] (by decide)

/-- C1 witness: a 1-byte compare-exchange on a zeroed state with matching
expected bytes succeeds. -/
theorem c1_compare_exchange_witness :
    (__atomic_compare_exchange_c lfNone 1 0 16 32 0 0 zeroState).ok = true :=
  (c1_compare_exchange lfNone 1 0 16 32 0 0 zeroState validMem_zeroMem
    (Or.inl (by norm_num))).1.mpr rfl

/-- C2 witness: storing 7 into an 8-byte location and loading it back
returns 7. -/
theorem c2_store_load_roundtrip_witness :
    (__atomic_load_sized lfAll 8 0 0 (__atomic_store_sized lfAll 8 0 7 0 zeroState).st).val
      = 7 :=
  (c2_store_load_roundtrip lfAll 8 0 7 0 0 0 0 zeroState (by norm_num) (by norm_num)
    validMem_zeroMem).1

/-- C3 witness: `fetch_add 5` on an 8-byte zeroed location returns 0 and
leaves the location holding 5. -/
theorem c3_fetch_op_witness :
    (__atomic_fetch_sized RMWOp.add lfNone 8 0 5 0 zeroState).val = 0 ∧
    bytesToNat (readBytes
      (__atomic_fetch_sized RMWOp.add lfNone 8 0 5 0 zeroState).st.mem 0 8) = 5 :=
  (c3_fetch_op RMWOp.add lfNone 8 0 5 0 zeroState (by norm_num)
    validMem_zeroMem).2.2.2.2.2.2.2.1 lfNone 0 0

/-- C4 witness: on a platform with no lock-free sizes a 4-byte load takes
the slow path and releases the hashed lock slot. -/
theorem c4_lockfree_dispatch_witness :
    (__atomic_load_c lfNone 4 0 16 0 zeroState).st.locks =
      releaseLock zeroState.locks (lock_for_pointer 0) :=
  (c4_lockfree_dispatch lfNone 4 0 16 0 16 32 48 64 0 0 0 zeroState).2.2.2.2.1 rfl

/-- C6 witness: a 4-byte generic store from a buffer holding the encoding
of 0 produces the same final memory as the sized store of the value 0. -/
theorem c6_sized_matches_generic_witness :
    (__atomic_store_c lfAll 4 0 16 0 zeroState).st.mem =
      (__atomic_store_sized lfAll 4 0 0 0 zeroState).st.mem :=
  ((c6_sized_matches_generic lfAll 4 zeroState validMem_zeroMem).2.1 0 16 0 0 rfl).2.2

/-- C7 witness: the 8-byte exchange scenario of the spec on a zeroed
location returns prior value 0 and stores `0x1122334455667788`. -/
theorem c7_exchange_semantics_witness :
    (__atomic_exchange_sized lfAll 8 0 0x1122334455667788 0 zeroState).val = 0 ∧
    bytesToNat (readBytes (__atomic_exchange_sized lfAll 8 0 0x1122334455667788 0
      zeroState).st.mem 0 8) = 0x1122334455667788 :=
  (c7_exchange_semantics lfNone 8 0 16 32 0 zeroState validMem_zeroMem
    (Or.inl (by norm_num)) (Or.inl (by norm_num))).2.2 lfAll 0 0

/-- C8 witness: a 4-byte generic load into a buffer at 16 leaves the byte
at address 100 untouched. -/
theorem c8_frame_witness :
    (__atomic_load_c lfNone 4 0 16 0 zeroState).st.mem 100 = zeroState.mem 100 :=
  (c8_frame lfNone 4 0 16 0 16 32 48 64 0 0 0 zeroState).1 100 (Or.inr (by norm_num))

/-- C5 witness: the hash agrees with the spec description and lands in the
table at a concrete address. -/
theorem c5_lock_for_pointer_hash_witness :
    lock_for_pointer 0x12345678 = lock_for_spec 0x12345678 ∧
    lock_for_pointer 0x12345678 < SPINLOCK_COUNT :=
  c5_lock_for_pointer_hash 0x12345678

/-- C10 witness: querying (10, 13, 0) against cached host version
(10, 14, 6) answers 1. -/
theorem c10_isOSVersionAtLeast_lex_witness :
    __isOSVersionAtLeast 10 14 6 10 13 0 = 1 :=
  (c10_isOSVersionAtLeast_lex 10 14 6 10 13 0).1.mpr
    (Or.inr ⟨rfl, Or.inl (by norm_num)⟩)

end AtomicRT
